import Mathlib

/-!
Verification of the subprocess-backed RPC client in
`src/proxy_mcp/mcp_client.py` (`InnerMCPClient`).

The development contains three models, each a shallow embedding of a part
of the source:

1. a functional model of one iteration of `_reader_loop` (lines 94-126),
   operating on the decoded value of a stdout line, used for the claims
   about response dispatch, malformed lines and unknown ids;
2. a fuel-indexed model of the mutual recursion
   `_start_subprocess` -> `_initialize` -> `_send_request` ->
   `_restart_subprocess` -> `_start_subprocess` (lines 41-155, 196-202),
   used for the claims about handshake failure;
3. a small-step interleaving machine for the whole client
   (`_get_id`, `_send_request`, `_reader_loop`, `_restart_subprocess`),
   with one event per atomic action of the source, used for the claims
   about concurrency, ids and restarts.
-/

namespace ProxyMCP

/-! ### JSON values

`Json` is the result of a successful `json.loads` on one line: the usual
Python representation (dict, list, str, int, bool, None).  Numbers are
modelled as integers; the request ids the client allocates are integers.
-/

inductive Json where
  | null
  | bool (b : Bool)
  | num (n : Int)
  | str (s : String)
  | arr (elems : List Json)
  | obj (fields : List (String × Json))

/-- The field names used by `_reader_loop`. -/
def kId : String := "id"

def kError : String := "error"

def kResult : String := "result"

def kMethod : String := "method"

/-- Raw lookup in a decoded dict: `resp[k]` if the key is present.
`obj` represents an already constructed Python dict, so keys are unique. -/
def lookupField : List (String × Json) → String → Option Json
  | [], _ => none
  | (k, v) :: t, key => if k = key then some v else lookupField t key

def isNull : Json → Bool
  | Json.null => true
  | _ => false

/-- `resp.get(k)` combined with Python's `is not None` test: a key that is
absent and a key stored as JSON `null` both give Python `None`. -/
def getNotNone (fs : List (String × Json)) (key : String) : Option Json :=
  match lookupField fs key with
  | some v => if isNull v then none else some v
  | none => none

/-- Python dict key equality against the integer keys of
`_pending_requests`: `True == 1` and `False == 0` in Python, so a boolean
id can address an integer key; other hashable values never match. -/
def pyIntKey : Json → Option Int
  | Json.num n => some n
  | Json.bool b => some (if b then 1 else 0)
  | _ => none

/-- Whether the decoded value is hashable and hence usable as an argument
of `dict.pop`; a list or dict id raises `TypeError` inside the reader. -/
def pyHashable : Json → Bool
  | Json.arr _ => false
  | Json.obj _ => false
  | _ => true

/-! ### Association-list helpers (Python dict with integer keys) -/

def alookup {α : Type} : List (Int × α) → Int → Option α
  | [], _ => none
  | (k, v) :: t, key => if k = key then some v else alookup t key

def aerase {α : Type} : List (Int × α) → Int → List (Int × α)
  | [], _ => []
  | (k, v) :: t, key => if k = key then aerase t key else (k, v) :: aerase t key

/-! ### Functional model of one `_reader_loop` iteration (lines 94-126)

A stream item is the outcome of `json.loads` on one non-empty line:
`invalid` when it raises `JSONDecodeError` (lines 106-108), otherwise the
decoded value.  End of the item list models EOF (line 100).

A pending entry is `(id, (token, done))`: the waiter's `Future`, with its
token and its `done()` flag.  An iteration either continues with an
updated table and the resolutions it performed, or breaks out of the loop
(the `except Exception ... break` at lines 124-126).
-/

inductive RLine where
  | invalid
  | parsed (j : Json)

inductive ROutcome where
  | ok (v : Json)
  | err (e : Json)

inductive StepOut where
  | cont (pend : List (Int × (Nat × Bool))) (outs : List (Nat × ROutcome))
  | brk (pend : List (Int × (Nat × Bool)))

/-- One iteration of the reader loop body on one line.

* `JSONDecodeError`: log and continue (lines 106-108).
* decoded non-dict: `resp.get("id")` raises `AttributeError`, caught by
  the outer handler which breaks the loop (lines 111, 124-126).
* id present and not `None`: `self._pending_requests.pop(req_id, None)`;
  an unhashable id (list/dict) raises `TypeError` in `pop` and breaks the
  loop; a found waiter is removed and, unless already done, resolved with
  the error payload if `"error" in resp` else with
  `resp.get("result", {})` (lines 112-118).
* the notification branch (lines 120-122) only logs. -/
def readerStep (pend : List (Int × (Nat × Bool))) : RLine → StepOut
  | RLine.invalid => StepOut.cont pend []
  | RLine.parsed j =>
    match j with
    | Json.obj fs =>
      match getNotNone fs kId with
      | some idv =>
        if pyHashable idv then
          match pyIntKey idv with
          | some k =>
            match alookup pend k with
            | some w =>
              if w.2 then StepOut.cont (aerase pend k) []
              else
                match lookupField fs kError with
                | some e => StepOut.cont (aerase pend k) [(w.1, ROutcome.err e)]
                | none =>
                    StepOut.cont (aerase pend k)
                      [(w.1, ROutcome.ok ((lookupField fs kResult).getD (Json.obj [])))]
            | none => StepOut.cont pend []
          | none => StepOut.cont pend []
        else StepOut.brk pend
      | none => StepOut.cont pend []
    | _ => StepOut.brk pend

structure RResult where
  pend : List (Int × (Nat × Bool))
  outs : List (Nat × ROutcome)
  broke : Bool

/-- The reader loop over a whole stream of lines: iterate `readerStep`
until the stream ends (EOF) or an iteration breaks. -/
def readerRun : List (Int × (Nat × Bool)) → List RLine → RResult
  | pend, [] => ⟨pend, [], false⟩
  | pend, l :: rest =>
    match readerStep pend l with
    | StepOut.cont p2 os =>
      let r := readerRun p2 rest
      ⟨r.pend, os ++ r.outs, r.broke⟩
    | StepOut.brk p2 => ⟨p2, [], true⟩

/-! ### Model of the spawn/handshake/restart recursion (C2)

`_start_subprocess` (lines 41-65) spawns the process and calls
`_initialize` (lines 128-155), which issues the `initialize` request via
`_send_request` (lines 163-207).  `_send_request` reacts to a timeout of
`future.result` by calling `_restart_subprocess` (lines 196-202), and
`_restart_subprocess` ends by calling `_start_subprocess` again
(line 88).  The behavior of each successive subprocess generation's
handshake is abstracted as `HsBehavior`:

* `ok`: the initialize response arrives, `_start_subprocess` returns;
* `errorResp`: the waiter is failed (error response / spawn failure);
  `_send_request` re-raises (lines 204-207), `_initialize` and
  `_start_subprocess` log and re-raise (lines 153-155, 63-65);
* `timeout`: `future.result(timeout=60)` raises `TimeoutError`;
  `_send_request` calls `_restart_subprocess()` (line 201), i.e. recurses
  into the next generation; only if that call returns does it raise
  `TimeoutError` itself (line 202); an exception escaping the nested
  restart propagates instead.

`startLoop beh gen fuel` runs this recursion starting at generation
`gen`, allowing at most `fuel` nested spawn attempts; `none` means the
fuel was exhausted without either returning or raising, so the true
(unbounded) recursion performs more than `fuel` spawn-and-handshake
attempts. -/

inductive HsBehavior where
  | ok
  | errorResp
  | timeout

inductive StartOutcome where
  | started
  | raised

def startLoop (beh : Nat → HsBehavior) : Nat → Nat → Option StartOutcome
  | _, 0 => none
  | gen, fuel + 1 =>
    match beh gen with
    | HsBehavior.ok => some StartOutcome.started
    | HsBehavior.errorResp => some StartOutcome.raised
    | HsBehavior.timeout =>
      match startLoop beh (gen + 1) fuel with
      | none => none
      | some StartOutcome.started => some StartOutcome.raised
      | some StartOutcome.raised => some StartOutcome.raised

/-! ### Small-step interleaving machine for the whole client

One caller thread executing `_send_request` (lines 163-207) is modelled
as a phase automaton; the reader thread and spontaneous subprocess exit
are separate events.  Each event is one atomic action of the source:
Python dict operations are atomic under the GIL, and the regions guarded
by `self._write_lock` (`_get_id`, the encode-and-write block at lines
186-189, the fail-and-clear block of `_restart_subprocess` at lines
81-86) are steps that require the lock to be free.

The write of one request line is split into two wire fragments
(`chunkA`, `chunkB`) so that mutual exclusion of writers is a provable
property rather than a modelling assumption.  A write failure is the
write call raising before anything reaches the pipe (Python buffers the
line and `BrokenPipeError` surfaces at `flush`), taking the generic
`except` branch at lines 204-207.

The restart performed by `_restart_subprocess` (lines 67-88) is one
step: terminate, fail every still-pending waiter that is not yet done
with `RuntimeError("Server restarted")`, clear the table, and respawn.
The nested handshake exchange of the respawn is elided (its success is
assumed; its failure modes are the subject of the `startLoop` model).

Ghost fields (`restartCount`, `allocLog`, `regLog`, `wire`, `chunks`,
`resolved`) record history; they never influence enabledness or effects
of the real state.  Payload contents are abstract tokens here; the
payload-level dispatch is the subject of the functional reader model. -/

inductive Outcome where
  | success (v : Nat)
  | remoteError (e : Nat)
  | restartError
  | timeoutError
  | localError
deriving DecidableEq

inductive Payload where
  | ok (v : Nat)
  | err (e : Nat)
deriving DecidableEq

def Payload.outcome : Payload → Outcome
  | Payload.ok v => Outcome.success v
  | Payload.err e => Outcome.remoteError e

/-- The control point of one caller inside `_send_request`; the carried
integer is the request id the caller allocated. -/
inductive Phase where
  | start
  | checked
  | gotId (i : Int)
  | registered (i : Int)
  | inLockA (i : Int)
  | inLockB (i : Int)
  | inLockC (i : Int)
  | waiting (i : Int)
  | tRestarting (i : Int)
  | done (o : Outcome)
deriving DecidableEq

structure SysState where
  nextId : Int
  pending : List (Int × Nat)
  callers : List Phase
  writeLock : Option Nat
  chunks : List (Nat × Bool)
  wire : List Int
  resolved : List (Int × Nat × Outcome)
  procAlive : Bool
  restartCount : Nat
  allocLog : List Int
  regLog : List (Int × Nat × Nat)
deriving DecidableEq

inductive Event where
  | pollCheck (c : Nat)
  | getId (c : Nat)
  | register (c : Nat)
  | acquire (c : Nat)
  | chunkA (c : Nat)
  | chunkB (c : Nat)
  | release (c : Nat)
  | writeFail (c : Nat)
  | finish (c : Nat)
  | timeoutPop (c : Nat)
  | timeoutRestart (c : Nat)
  | respond (i : Int) (p : Payload)
  | procExit
deriving DecidableEq

def phaseOf (s : SysState) (c : Nat) : Option Phase := s.callers[c]?

def setPhase (s : SysState) (c : Nat) (p : Phase) : SysState :=
  { s with callers := s.callers.set c p }

/-- `future.done()` of the waiter of caller `c` on id `i`: a resolution
has been recorded for it. -/
def findRes : List (Int × Nat × Outcome) → Int → Nat → Option Outcome
  | [], _, _ => none
  | (i, c, o) :: t, i0, c0 => if i = i0 ∧ c = c0 then some o else findRes t i0 c0

def resolutionFor (s : SysState) (i : Int) (c : Nat) : Option Outcome :=
  findRes s.resolved i c

/-- Lines 72-88: fail every pending waiter that is not yet done with
`RuntimeError("Server restarted")`, clear the table, respawn. -/
def restartEffect (s : SysState) : SysState :=
  { s with
    resolved := s.resolved ++
      (s.pending.filter (fun p => (findRes s.resolved p.1 p.2).isNone)).map
        (fun p => (p.1, p.2, Outcome.restartError)),
    pending := [],
    procAlive := true,
    restartCount := s.restartCount + 1 }

def step (s : SysState) : Event → Option SysState
  | Event.pollCheck c =>
    -- lines 170-172: `if self.proc.poll() is not None: self._restart_subprocess()`
    match phaseOf s c with
    | some Phase.start =>
      if s.procAlive then some (setPhase s c Phase.checked)
      else if s.writeLock = none then some (setPhase (restartEffect s) c Phase.checked)
      else none
    | _ => none
  | Event.getId c =>
    -- lines 157-161: `_get_id` under `self._write_lock`
    match phaseOf s c with
    | some Phase.checked =>
      if s.writeLock = none then
        some { setPhase s c (Phase.gotId s.nextId) with
               nextId := s.nextId + 1,
               allocLog := s.allocLog ++ [s.nextId] }
      else none
    | _ => none
  | Event.register c =>
    -- line 176: `self._pending_requests[req_id] = future` (no lock)
    match phaseOf s c with
    | some (Phase.gotId i) =>
      some { setPhase s c (Phase.registered i) with
             pending := s.pending ++ [(i, c)],
             regLog := s.regLog ++ [(i, c, s.restartCount)] }
    | _ => none
  | Event.acquire c =>
    -- line 186: `with self._write_lock:`
    match phaseOf s c with
    | some (Phase.registered i) =>
      if s.writeLock = none then
        some { setPhase s c (Phase.inLockA i) with writeLock := some c }
      else none
    | _ => none
  | Event.chunkA c =>
    -- lines 187-188: encode and write, first fragment of the line
    match phaseOf s c with
    | some (Phase.inLockA i) =>
      some { setPhase s c (Phase.inLockB i) with chunks := s.chunks ++ [(c, true)] }
    | _ => none
  | Event.chunkB c =>
    -- lines 188-189: rest of the line and flush; the request is now on the wire
    match phaseOf s c with
    | some (Phase.inLockB i) =>
      some { setPhase s c (Phase.inLockC i) with
             chunks := s.chunks ++ [(c, false)],
             wire := s.wire ++ [i] }
    | _ => none
  | Event.release c =>
    -- end of the `with` block; the caller then blocks in `future.result`
    match phaseOf s c with
    | some (Phase.inLockC i) =>
      some { setPhase s c (Phase.waiting i) with writeLock := none }
    | _ => none
  | Event.writeFail c =>
    -- lines 188-189 raising on a dead pipe, then lines 204-207: pop and re-raise
    match phaseOf s c with
    | some (Phase.inLockA i) =>
      if s.procAlive then none
      else
        some { setPhase s c (Phase.done Outcome.localError) with
               pending := aerase s.pending i,
               writeLock := none }
    | _ => none
  | Event.finish c =>
    -- line 194: `future.result` returns or re-raises the recorded resolution
    match phaseOf s c with
    | some (Phase.waiting i) =>
      match resolutionFor s i c with
      | some o => some (setPhase s c (Phase.done o))
      | none => none
    | _ => none
  | Event.timeoutPop c =>
    -- lines 196-199: the deadline elapsed with the future still pending
    match phaseOf s c with
    | some (Phase.waiting i) =>
      match resolutionFor s i c with
      | none => some { setPhase s c (Phase.tRestarting i) with pending := aerase s.pending i }
      | some _ => none
    | _ => none
  | Event.timeoutRestart c =>
    -- lines 200-202: `self._restart_subprocess()` then `raise TimeoutError`
    match phaseOf s c with
    | some (Phase.tRestarting _) =>
      if s.writeLock = none then
        some (setPhase (restartEffect s) c (Phase.done Outcome.timeoutError))
      else none
    | _ => none
  | Event.respond i p =>
    -- lines 110-118 of `_reader_loop`, for a response whose id was written;
    -- the pop always removes the key, the resolution happens unless done
    if i ∈ s.wire then
      match alookup s.pending i with
      | some c =>
        match findRes s.resolved i c with
        | none =>
          some { s with
                 pending := aerase s.pending i,
                 resolved := s.resolved ++ [(i, c, p.outcome)] }
        | some _ => some { s with pending := aerase s.pending i }
      | none => some s
    else none
  | Event.procExit =>
    if s.procAlive then some { s with procAlive := false } else none

/-- The client just after `__init__`, with `n` caller threads about to
enter `_send_request`.  The constructor's own handshake exchange is
elided; ids start at 1 as in line 34. -/
def initState (n : Nat) : SysState :=
  { nextId := 1
    pending := []
    callers := List.replicate n Phase.start
    writeLock := none
    chunks := []
    wire := []
    resolved := []
    procAlive := true
    restartCount := 0
    allocLog := []
    regLog := [] }

def run (s : SysState) : List Event → Option SysState
  | [] => some s
  | e :: tr =>
    match step s e with
    | some s2 => run s2 tr
    | none => none

/-! ### Basic lemmas about the helpers -/

theorem alookup_mem {α : Type} {l : List (Int × α)} {k : Int} {v : α}
    (h : alookup l k = some v) : (k, v) ∈ l := by
  induction l with
  | nil => simp [alookup] at h
  | cons hd t ih =>
    obtain ⟨k1, v1⟩ := hd
    by_cases hk : k1 = k
    · subst hk
      simp [alookup] at h
      simp [h]
    · simp [alookup, hk] at h
      exact List.mem_cons_of_mem _ (ih h)

theorem mem_aerase {α : Type} {l : List (Int × α)} {k : Int} {p : Int × α} :
    p ∈ aerase l k ↔ p ∈ l ∧ p.1 ≠ k := by
  induction l with
  | nil => simp [aerase]
  | cons hd t ih =>
    obtain ⟨k1, v1⟩ := hd
    by_cases hk : k1 = k <;> simp [aerase, hk, ih, List.mem_cons] <;> aesop

theorem alookup_aerase_ne {α : Type} {l : List (Int × α)} {k k2 : Int}
    (h : k2 ≠ k) : alookup (aerase l k) k2 = alookup l k2 := by
  induction l with
  | nil => simp [aerase]
  | cons hd t ih =>
    obtain ⟨k1, v1⟩ := hd
    by_cases hk : k1 = k
    · subst hk
      have hne : ¬k1 = k2 := fun e => h e.symm
      simp [aerase, alookup, hne, ih]
    · by_cases hk2 : k1 = k2 <;> simp [aerase, hk, alookup, hk2, h, ih]

theorem findRes_mem {l : List (Int × Nat × Outcome)} {i : Int} {c : Nat} {o : Outcome}
    (h : findRes l i c = some o) : (i, c, o) ∈ l := by
  induction l with
  | nil => simp [findRes] at h
  | cons hd t ih =>
    obtain ⟨i1, c1, o1⟩ := hd
    by_cases hic : i1 = i ∧ c1 = c
    · obtain ⟨h1, h2⟩ := hic
      subst h1; subst h2
      simp [findRes] at h
      simp [h]
    · simp [findRes, hic] at h
      exact List.mem_cons_of_mem _ (ih h)

theorem findRes_none {l : List (Int × Nat × Outcome)} {i : Int} {c : Nat}
    (h : ∀ r ∈ l, r.1 ≠ i) : findRes l i c = none := by
  induction l with
  | nil => rfl
  | cons hd t ih =>
    obtain ⟨i1, c1, o1⟩ := hd
    have h1 : i1 ≠ i := h (i1, c1, o1) (List.mem_cons_self _ _)
    have : ¬(i1 = i ∧ c1 = c) := fun hc => h1 hc.1
    simp only [findRes, if_neg this]
    exact ih fun r hr => h r (List.mem_cons_of_mem _ hr)

theorem findRes_append_of_none {l1 l2 : List (Int × Nat × Outcome)} {i : Int} {c : Nat}
    (h : findRes l1 i c = none) : findRes (l1 ++ l2) i c = findRes l2 i c := by
  induction l1 with
  | nil => rfl
  | cons hd t ih =>
    obtain ⟨i1, c1, o1⟩ := hd
    by_cases hic : i1 = i ∧ c1 = c
    · simp [findRes, hic] at h
    · simp only [findRes, if_neg hic] at h ⊢
      exact ih h

theorem findRes_append_of_some {l1 l2 : List (Int × Nat × Outcome)} {i : Int} {c : Nat}
    {o : Outcome} (h : findRes l1 i c = some o) : findRes (l1 ++ l2) i c = some o := by
  induction l1 with
  | nil => simp [findRes] at h
  | cons hd t ih =>
    obtain ⟨i1, c1, o1⟩ := hd
    by_cases hic : i1 = i ∧ c1 = c
    · simp only [findRes, if_pos hic] at h ⊢
      exact h
    · simp only [findRes, if_neg hic] at h ⊢
      exact ih h

theorem phaseOf_lt {s : SysState} {c : Nat} {p : Phase}
    (h : phaseOf s c = some p) : c < s.callers.length := by
  by_contra hlt
  rw [phaseOf, List.getElem?_eq_none (Nat.le_of_not_lt hlt)] at h
  exact Option.noConfusion h

/-- Well-formedness of the byte stream written to the subprocess's stdin:
a sequence of complete two-fragment request lines, each written by one
caller, with no fragments of two requests interleaved. -/
def chunksClosed : List (Nat × Bool) → Bool
  | [] => true
  | (c, true) :: (c2, false) :: t => decide (c = c2) && chunksClosed t
  | _ => false

theorem chunksClosed_append_pair {l : List (Nat × Bool)} {c : Nat}
    (h : chunksClosed l = true) :
    chunksClosed (l ++ [(c, true), (c, false)]) = true := by
  induction l using chunksClosed.induct <;> simp_all [chunksClosed]

theorem phaseOf_setPhase_self {s : SysState} {c : Nat} (p : Phase)
    (h : c < s.callers.length) : phaseOf (setPhase s c p) c = some p := by
  simp [phaseOf, setPhase, List.getElem?_set_self, h]

theorem phaseOf_setPhase_ne {s : SysState} {c c2 : Nat} (p : Phase)
    (h : c2 ≠ c) : phaseOf (setPhase s c p) c2 = phaseOf s c2 := by
  simp [phaseOf, setPhase, List.getElem?_set_ne (fun e => h e.symm)]

/-- The request id a caller's control point carries, if any. -/
def holdsId : Phase → Option Int
  | Phase.gotId i => some i
  | Phase.registered i => some i
  | Phase.inLockA i => some i
  | Phase.inLockB i => some i
  | Phase.inLockC i => some i
  | Phase.waiting i => some i
  | Phase.tRestarting i => some i
  | _ => none

/-- The request id a caller carries once its waiter has been inserted
into `_pending_requests` (stays set after the insert). -/
def regIdx : Phase → Option Int
  | Phase.registered i => some i
  | Phase.inLockA i => some i
  | Phase.inLockB i => some i
  | Phase.inLockC i => some i
  | Phase.waiting i => some i
  | Phase.tRestarting i => some i
  | _ => none

/-- Control points inside the `with self._write_lock:` block of
`_send_request` (lines 186-189). -/
def inLockPhase : Phase → Bool
  | Phase.inLockA _ => true
  | Phase.inLockB _ => true
  | Phase.inLockC _ => true
  | _ => false

/-- The inductive invariant of the client machine. -/
structure Inv (s : SysState) : Prop where
  allocLt : ∀ i ∈ s.allocLog, i < s.nextId
  allocInc : s.allocLog.Pairwise (fun a b => a < b)
  regLt : ∀ e ∈ s.regLog, e.1 < s.nextId
  regNodup : (s.regLog.map (fun e => e.1)).Nodup
  heldLt : ∀ c p i, phaseOf s c = some p → holdsId p = some i → i < s.nextId
  heldInj : ∀ c1 c2 p1 p2 i, phaseOf s c1 = some p1 → phaseOf s c2 = some p2 →
    holdsId p1 = some i → holdsId p2 = some i → c1 = c2
  gotFresh : ∀ c i, phaseOf s c = some (Phase.gotId i) → ∀ e ∈ s.regLog, e.1 ≠ i
  heldReg : ∀ c p i, phaseOf s c = some p → regIdx p = some i → ∃ g, (i, c, g) ∈ s.regLog
  pendReg : ∀ p ∈ s.pending, ∃ g, (p.1, p.2, g) ∈ s.regLog
  pendNotDone : ∀ p ∈ s.pending, findRes s.resolved p.1 p.2 = none
  resReg : ∀ r ∈ s.resolved, ∃ g, (r.1, r.2.1, g) ∈ s.regLog
  lockOwner : ∀ c p, phaseOf s c = some p → inLockPhase p = true → s.writeLock = some c
  lockHeld : ∀ c, s.writeLock = some c → ∃ p, phaseOf s c = some p ∧ inLockPhase p = true
  chunksB : ∀ c i, phaseOf s c = some (Phase.inLockB i) →
    ∃ l, s.chunks = l ++ [(c, true)] ∧ chunksClosed l = true
  chunksNoB : (∀ c i, phaseOf s c ≠ some (Phase.inLockB i)) → chunksClosed s.chunks = true
  wireReg : ∀ i ∈ s.wire, ∃ c g, (i, c, g) ∈ s.regLog

theorem inv_init (n : Nat) : Inv (initState n) := by
  have hp : ∀ c p, phaseOf (initState n) c = some p → p = Phase.start := by
    intro c p h
    simp [initState, phaseOf, List.getElem?_replicate] at h
    exact h.2.symm
  refine ⟨?_, ?_, ?_, ?_, ?_, ?_, ?_, ?_, ?_, ?_, ?_, ?_, ?_, ?_, ?_, ?_⟩
  · simp [initState]
  · simp [initState]
  · simp [initState]
  · simp [initState]
  · intro c p i h1 h2
    have e := hp c p h1; subst e; simp [holdsId] at h2
  · intro c1 c2 p1 p2 i h1 h2 h3 h4
    have e := hp c1 p1 h1; subst e; simp [holdsId] at h3
  · intro c i h
    exact absurd (hp _ _ h) (by simp)
  · intro c p i h1 h2
    have e := hp c p h1; subst e; simp [regIdx] at h2
  · simp [initState]
  · simp [initState]
  · simp [initState]
  · intro c p h1 h2
    have e := hp c p h1; subst e; simp [inLockPhase] at h2
  · intro c h
    simp [initState] at h
  · intro c i h
    exact absurd (hp _ _ h) (by simp)
  · intro _
    simp [initState, chunksClosed]
  · simp [initState]

theorem getElem_set_phase {l : List Phase} {c : Nat} {p : Phase} (hlt : c < l.length)
    (c2 : Nat) : (l.set c p)[c2]? = if c2 = c then some p else l[c2]? := by
  by_cases e : c2 = c
  · subst e; simp [List.getElem?_set_self, hlt]
  · simp [List.getElem?_set_ne (fun x => e x.symm), e]

/-- Changing one caller's phase to a phase that carries no id, is not in
the lock region and is not `gotId`, from an old phase that is not in the
lock region, preserves the invariant when no other component changes. -/
theorem inv_setPhase_plain {s : SysState} {c : Nat} {p0 pnew : Phase} (hI : Inv s)
    (hold : phaseOf s c = some p0) (h0 : inLockPhase p0 = false)
    (hnl : holdsId pnew = none) (hreg : regIdx pnew = none)
    (hinl : inLockPhase pnew = false) (hnotB : ∀ i, pnew ≠ Phase.inLockB i)
    (hnotGot : ∀ i, pnew ≠ Phase.gotId i) :
    Inv (setPhase s c pnew) := by
  have hlt : c < s.callers.length := phaseOf_lt hold
  have hph : ∀ c2, phaseOf (setPhase s c pnew) c2 =
      if c2 = c then some pnew else phaseOf s c2 := by
    intro c2
    show (s.callers.set c pnew)[c2]? = _
    rw [getElem_set_phase hlt]
    rfl
  refine ⟨hI.allocLt, hI.allocInc, hI.regLt, hI.regNodup, ?_, ?_, ?_, ?_,
    hI.pendReg, hI.pendNotDone, hI.resReg, ?_, ?_, ?_, ?_, hI.wireReg⟩
  · intro c2 p i h1 h2
    rw [hph] at h1
    by_cases e : c2 = c
    · simp [e] at h1; subst h1; simp [hnl] at h2
    · simp [e] at h1; exact hI.heldLt c2 p i h1 h2
  · intro c1 c2 p1 p2 i h1 h2 h3 h4
    rw [hph] at h1 h2
    by_cases e1 : c1 = c
    · simp [e1] at h1; subst h1; simp [hnl] at h3
    · by_cases e2 : c2 = c
      · simp [e2] at h2; subst h2; simp [hnl] at h4
      · simp [e1] at h1; simp [e2] at h2
        exact hI.heldInj c1 c2 p1 p2 i h1 h2 h3 h4
  · intro c2 i h1
    rw [hph] at h1
    by_cases e : c2 = c
    · simp [e] at h1; exact absurd h1 (hnotGot i)
    · simp [e] at h1; exact hI.gotFresh c2 i h1
  · intro c2 p i h1 h2
    rw [hph] at h1
    by_cases e : c2 = c
    · simp [e] at h1; subst h1; simp [hreg] at h2
    · simp [e] at h1; exact hI.heldReg c2 p i h1 h2
  · intro c2 p h1 h2
    rw [hph] at h1
    by_cases e : c2 = c
    · simp [e] at h1; subst h1; simp [hinl] at h2
    · simp [e] at h1; exact hI.lockOwner c2 p h1 h2
  · intro c2 h1
    obtain ⟨p, hp, hpl⟩ := hI.lockHeld c2 h1
    by_cases e : c2 = c
    · subst e
      rw [hold] at hp
      obtain rfl := Option.some.inj hp
      rw [h0] at hpl
      exact absurd hpl (by simp)
    · exact ⟨p, by rw [hph]; simp [e, hp], hpl⟩
  · intro c2 i h1
    rw [hph] at h1
    by_cases e : c2 = c
    · simp [e] at h1; exact absurd h1 (hnotB i)
    · simp [e] at h1; exact hI.chunksB c2 i h1
  · intro h1
    apply hI.chunksNoB
    intro c2 i
    by_cases e : c2 = c
    · subst e
      intro hcon
      rw [hold] at hcon
      obtain rfl := Option.some.inj hcon
      simp [inLockPhase] at h0
    · have := h1 c2 i
      rw [hph] at this
      simpa [e] using this

/-- The restart performed with the write lock free (`_restart_subprocess`
lines 80-88 followed by the caller moving on), preserving the invariant.
The caller's new phase carries no id, no lock, and is not `gotId`. -/
theorem inv_restart_set {s : SysState} {c : Nat} {p0 pnew : Phase} (hI : Inv s)
    (hold : phaseOf s c = some p0) (hwl : s.writeLock = none)
    (hnl : holdsId pnew = none) (hreg : regIdx pnew = none)
    (hinl : inLockPhase pnew = false) (hnotB : ∀ i, pnew ≠ Phase.inLockB i)
    (hnotGot : ∀ i, pnew ≠ Phase.gotId i) :
    Inv (setPhase (restartEffect s) c pnew) := by
  have hlt : c < s.callers.length := phaseOf_lt hold
  have hph : ∀ c2, phaseOf (setPhase (restartEffect s) c pnew) c2 =
      if c2 = c then some pnew else phaseOf s c2 := by
    intro c2
    show (s.callers.set c pnew)[c2]? = _
    rw [getElem_set_phase hlt]
    rfl
  have hnoLock : ∀ c2 p2, phaseOf s c2 = some p2 → inLockPhase p2 = false := by
    intro c2 p2 h2
    by_contra hcon
    have := hI.lockOwner c2 p2 h2 (by simpa using hcon)
    rw [hwl] at this
    exact Option.noConfusion this
  refine ⟨hI.allocLt, hI.allocInc, hI.regLt, hI.regNodup, ?_, ?_, ?_, ?_,
    ?_, ?_, ?_, ?_, ?_, ?_, ?_, ?_⟩
  · intro c2 p i h1 h2
    rw [hph] at h1
    by_cases e : c2 = c
    · simp [e] at h1; subst h1; simp [hnl] at h2
    · simp [e] at h1; exact hI.heldLt c2 p i h1 h2
  · intro c1 c2 p1 p2 i h1 h2 h3 h4
    rw [hph] at h1 h2
    by_cases e1 : c1 = c
    · simp [e1] at h1; subst h1; simp [hnl] at h3
    · by_cases e2 : c2 = c
      · simp [e2] at h2; subst h2; simp [hnl] at h4
      · simp [e1] at h1; simp [e2] at h2
        exact hI.heldInj c1 c2 p1 p2 i h1 h2 h3 h4
  · intro c2 i h1
    rw [hph] at h1
    by_cases e : c2 = c
    · simp [e] at h1; exact absurd h1 (hnotGot i)
    · simp [e] at h1
      intro x hx
      exact hI.gotFresh c2 i h1 x hx
  · intro c2 p i h1 h2
    rw [hph] at h1
    by_cases e : c2 = c
    · simp [e] at h1; subst h1; simp [hreg] at h2
    · simp [e] at h1; exact hI.heldReg c2 p i h1 h2
  · intro p hp
    simp [setPhase, restartEffect] at hp
  · intro p hp
    simp [setPhase, restartEffect] at hp
  · intro r hr
    simp only [setPhase, restartEffect, List.mem_append] at hr
    rcases hr with hr | hr
    · exact hI.resReg r hr
    · simp only [List.mem_map, List.mem_filter] at hr
      obtain ⟨q, ⟨hq, _⟩, rfl⟩ := hr
      exact hI.pendReg q hq
  · intro c2 p h1 h2
    rw [hph] at h1
    by_cases e : c2 = c
    · simp [e] at h1; subst h1; simp [hinl] at h2
    · simp [e] at h1
      have := hnoLock c2 p h1
      rw [this] at h2
      exact absurd h2 (by simp)
  · intro c2 h1
    have h2 : s.writeLock = some c2 := h1
    rw [hwl] at h2
    exact absurd h2 Option.noConfusion
  · intro c2 i h1
    rw [hph] at h1
    by_cases e : c2 = c
    · simp [e] at h1; exact absurd h1 (hnotB i)
    · simp [e] at h1
      have := hnoLock c2 _ h1
      simp [inLockPhase] at this
  · intro _
    apply hI.chunksNoB
    intro c2 i hcon
    have := hnoLock c2 _ hcon
    simp [inLockPhase] at this
  · intro i h1
    exact hI.wireReg i h1

theorem inv_getId {s : SysState} {c : Nat} {s2 : SysState} (hI : Inv s)
    (h : step s (Event.getId c) = some s2) : Inv s2 := by
  simp only [step] at h
  split at h
  case h_2 => exact absurd h (by simp)
  case h_1 hc =>
  split at h
  case isFalse => exact absurd h (by simp)
  case isTrue hwl =>
  obtain rfl := Option.some.inj h
  have hlt : c < s.callers.length := phaseOf_lt hc
  have hph : ∀ c2, phaseOf { setPhase s c (Phase.gotId s.nextId) with
      nextId := s.nextId + 1, allocLog := s.allocLog ++ [s.nextId] } c2 =
      if c2 = c then some (Phase.gotId s.nextId) else phaseOf s c2 := by
    intro c2
    show (s.callers.set c _)[c2]? = _
    rw [getElem_set_phase hlt]
    rfl
  refine ⟨?_, ?_, ?_, hI.regNodup, ?_, ?_, ?_, ?_, hI.pendReg, hI.pendNotDone,
    hI.resReg, ?_, ?_, ?_, ?_, hI.wireReg⟩
  · intro i hi
    dsimp only at hi ⊢
    simp only [List.mem_append, List.mem_singleton] at hi
    rcases hi with hi | hi
    · have := hI.allocLt i hi; omega
    · subst hi; omega
  · dsimp only
    refine List.pairwise_append.mpr ⟨hI.allocInc, by simp, ?_⟩
    intro a ha b hb
    simp only [List.mem_singleton] at hb
    subst hb
    exact hI.allocLt a ha
  · intro e he
    dsimp only at he ⊢
    have := hI.regLt e he; omega
  · intro c2 p i h1 h2
    rw [hph] at h1
    dsimp only
    by_cases e : c2 = c
    · simp [e] at h1; subst h1; simp [holdsId] at h2; omega
    · simp [e] at h1
      have := hI.heldLt c2 p i h1 h2; omega
  · intro c1 c2 p1 p2 i h1 h2 h3 h4
    rw [hph] at h1 h2
    by_cases e1 : c1 = c
    · by_cases e2 : c2 = c
      · rw [e1, e2]
      · simp [e1] at h1
        subst h1
        simp [holdsId] at h3
        subst h3
        simp [e2] at h2
        have := hI.heldLt c2 p2 _ h2 h4
        omega
    · by_cases e2 : c2 = c
      · simp [e2] at h2
        subst h2
        simp [holdsId] at h4
        subst h4
        simp [e1] at h1
        have := hI.heldLt c1 p1 _ h1 h3
        omega
      · simp [e1] at h1; simp [e2] at h2
        exact hI.heldInj c1 c2 p1 p2 i h1 h2 h3 h4
  · intro c2 i h1
    rw [hph] at h1
    by_cases e : c2 = c
    · simp [e] at h1
      obtain rfl : s.nextId = i := by simpa using h1
      intro x hx
      dsimp only at hx
      have := hI.regLt x hx
      omega
    · simp [e] at h1
      intro x hx
      dsimp only at hx
      exact hI.gotFresh c2 i h1 x hx
  · intro c2 p i h1 h2
    rw [hph] at h1
    by_cases e : c2 = c
    · simp [e] at h1; subst h1; simp [regIdx] at h2
    · simp [e] at h1; exact hI.heldReg c2 p i h1 h2
  · intro c2 p h1 h2
    rw [hph] at h1
    by_cases e : c2 = c
    · simp [e] at h1; subst h1; simp [inLockPhase] at h2
    · simp [e] at h1; exact hI.lockOwner c2 p h1 h2
  · intro c2 h1
    have h2 : s.writeLock = some c2 := h1
    rw [hwl] at h2
    exact absurd h2 Option.noConfusion
  · intro c2 i h1
    rw [hph] at h1
    by_cases e : c2 = c
    · simp [e] at h1
    · simp [e] at h1; exact hI.chunksB c2 i h1
  · intro h1
    apply hI.chunksNoB
    intro c2 i
    by_cases e : c2 = c
    · subst e; rw [hc]; simp
    · have := h1 c2 i
      rw [hph] at this
      simpa [e] using this

theorem inv_register {s : SysState} {c : Nat} {s2 : SysState} (hI : Inv s)
    (h : step s (Event.register c) = some s2) : Inv s2 := by
  simp only [step] at h
  split at h
  case h_2 => exact absurd h (by simp)
  case h_1 i hc =>
  obtain rfl := Option.some.inj h
  have hlt : c < s.callers.length := phaseOf_lt hc
  have hifresh : ∀ e ∈ s.regLog, e.1 ≠ i := hI.gotFresh c i hc
  have hph : ∀ c2, phaseOf { setPhase s c (Phase.registered i) with
      pending := s.pending ++ [(i, c)], regLog := s.regLog ++ [(i, c, s.restartCount)] } c2 =
      if c2 = c then some (Phase.registered i) else phaseOf s c2 := by
    intro c2
    show (s.callers.set c _)[c2]? = _
    rw [getElem_set_phase hlt]
    rfl
  refine ⟨hI.allocLt, hI.allocInc, ?_, ?_, ?_, ?_, ?_, ?_, ?_, ?_, ?_, ?_, ?_,
    ?_, ?_, ?_⟩
  · intro e he
    simp only [List.mem_append, List.mem_singleton] at he
    rcases he with he | he
    · exact hI.regLt e he
    · subst he
      exact hI.heldLt c (Phase.gotId i) i hc rfl
  · rw [List.map_append]
    refine List.Nodup.append hI.regNodup (by simp) ?_
    intro x hx hy
    simp only [List.map_cons, List.map_nil, List.mem_singleton] at hy
    subst hy
    simp only [List.mem_map] at hx
    obtain ⟨e, he, hex⟩ := hx
    exact hifresh e he hex
  · intro c2 p i2 h1 h2
    rw [hph] at h1
    by_cases e : c2 = c
    · simp [e] at h1
      subst h1
      simp [holdsId] at h2
      subst h2
      exact hI.heldLt c (Phase.gotId i) i hc rfl
    · simp [e] at h1; exact hI.heldLt c2 p i2 h1 h2
  · intro c1 c2 p1 p2 i2 h1 h2 h3 h4
    rw [hph] at h1 h2
    by_cases e1 : c1 = c
    · by_cases e2 : c2 = c
      · rw [e1, e2]
      · simp [e1] at h1
        subst h1
        simp [holdsId] at h3
        subst h3
        simp [e2] at h2
        rw [e1]
        exact absurd (hI.heldInj c c2 (Phase.gotId i) p2 i hc h2 rfl h4).symm e2
    · by_cases e2 : c2 = c
      · simp [e2] at h2
        subst h2
        simp [holdsId] at h4
        subst h4
        simp [e1] at h1
        exact (hI.heldInj c1 c p1 (Phase.gotId i) i h1 hc h3 rfl).trans e2.symm
      · simp [e1] at h1; simp [e2] at h2
        exact hI.heldInj c1 c2 p1 p2 i2 h1 h2 h3 h4
  · intro c2 i2 h1
    rw [hph] at h1
    by_cases e : c2 = c
    · simp [e] at h1
    · simp [e] at h1
      intro x hx
      simp only [List.mem_append, List.mem_singleton] at hx
      rcases hx with hx | hx
      · exact hI.gotFresh c2 i2 h1 x hx
      · subst hx
        intro hcon
        simp only at hcon
        subst hcon
        exact e (hI.heldInj c2 c (Phase.gotId i) (Phase.gotId i) i h1 hc rfl rfl)
  · intro c2 p i2 h1 h2
    rw [hph] at h1
    by_cases e : c2 = c
    · simp [e] at h1
      subst h1
      simp [regIdx] at h2
      subst h2
      rw [e]
      exact ⟨s.restartCount, by simp⟩
    · simp [e] at h1
      obtain ⟨g, hg⟩ := hI.heldReg c2 p i2 h1 h2
      exact ⟨g, by simp [hg]⟩
  · intro p hp
    simp only [List.mem_append, List.mem_singleton] at hp
    rcases hp with hp | hp
    · obtain ⟨g, hg⟩ := hI.pendReg p hp
      exact ⟨g, by simp [hg]⟩
    · subst hp
      exact ⟨s.restartCount, by simp⟩
  · intro p hp
    simp only [List.mem_append, List.mem_singleton] at hp
    rcases hp with hp | hp
    · exact hI.pendNotDone p hp
    · subst hp
      apply findRes_none
      intro r hr
      obtain ⟨g, hg⟩ := hI.resReg r hr
      exact hifresh _ hg
  · intro r hr
    obtain ⟨g, hg⟩ := hI.resReg r hr
    exact ⟨g, by simp [hg]⟩
  · intro c2 p h1 h2
    rw [hph] at h1
    by_cases e : c2 = c
    · simp [e] at h1; subst h1; simp [inLockPhase] at h2
    · simp [e] at h1; exact hI.lockOwner c2 p h1 h2
  · intro c2 h1
    obtain ⟨p, hp, hpl⟩ := hI.lockHeld c2 h1
    by_cases e : c2 = c
    · subst e
      rw [hc] at hp
      obtain rfl := Option.some.inj hp
      simp [inLockPhase] at hpl
    · exact ⟨p, by rw [hph]; simp [e, hp], hpl⟩
  · intro c2 i2 h1
    rw [hph] at h1
    by_cases e : c2 = c
    · simp [e] at h1
    · simp [e] at h1
      obtain ⟨l, hl, hcl⟩ := hI.chunksB c2 i2 h1
      exact ⟨l, hl, hcl⟩
  · intro h1
    apply hI.chunksNoB
    intro c2 i2
    by_cases e : c2 = c
    · subst e; rw [hc]; simp
    · have := h1 c2 i2
      rw [hph] at this
      simpa [e] using this
  · intro i2 h1
    obtain ⟨c3, g, hg⟩ := hI.wireReg i2 h1
    exact ⟨c3, g, by simp [hg]⟩

theorem inv_acquire {s : SysState} {c : Nat} {s2 : SysState} (hI : Inv s)
    (h : step s (Event.acquire c) = some s2) : Inv s2 := by
  simp only [step] at h
  split at h
  case h_2 => exact absurd h (by simp)
  case h_1 i hc =>
  split at h
  case isFalse => exact absurd h (by simp)
  case isTrue hwl =>
  obtain rfl := Option.some.inj h
  have hlt : c < s.callers.length := phaseOf_lt hc
  have hph : ∀ c2, phaseOf { setPhase s c (Phase.inLockA i) with writeLock := some c } c2 =
      if c2 = c then some (Phase.inLockA i) else phaseOf s c2 := by
    intro c2
    show (s.callers.set c _)[c2]? = _
    rw [getElem_set_phase hlt]
    rfl
  have hnoLock : ∀ c2 p2, phaseOf s c2 = some p2 → inLockPhase p2 = false := by
    intro c2 p2 h2
    by_contra hcon
    have := hI.lockOwner c2 p2 h2 (by simpa using hcon)
    rw [hwl] at this
    exact Option.noConfusion this
  refine ⟨hI.allocLt, hI.allocInc, hI.regLt, hI.regNodup, ?_, ?_, ?_, ?_,
    hI.pendReg, hI.pendNotDone, hI.resReg, ?_, ?_, ?_, ?_, hI.wireReg⟩
  · intro c2 p i2 h1 h2
    rw [hph] at h1
    by_cases e : c2 = c
    · simp [e] at h1
      subst h1
      simp [holdsId] at h2
      subst h2
      exact hI.heldLt c (Phase.registered i) i hc rfl
    · simp [e] at h1
      exact hI.heldLt c2 p i2 h1 h2
  · intro c1 c2 p1 p2 i2 h1 h2 h3 h4
    rw [hph] at h1 h2
    by_cases e1 : c1 = c
    · by_cases e2 : c2 = c
      · rw [e1, e2]
      · simp [e1] at h1
        subst h1
        simp [holdsId] at h3
        subst h3
        simp [e2] at h2
        rw [e1]
        exact hI.heldInj c c2 (Phase.registered i) p2 i hc h2 rfl h4
    · by_cases e2 : c2 = c
      · simp [e2] at h2
        subst h2
        simp [holdsId] at h4
        subst h4
        simp [e1] at h1
        rw [e2]
        exact hI.heldInj c1 c p1 (Phase.registered i) i h1 hc h3 rfl
      · simp [e1] at h1; simp [e2] at h2
        exact hI.heldInj c1 c2 p1 p2 i2 h1 h2 h3 h4
  · intro c2 i2 h1
    rw [hph] at h1
    by_cases e : c2 = c
    · simp [e] at h1
    · simp [e] at h1
      exact hI.gotFresh c2 i2 h1
  · intro c2 p i2 h1 h2
    rw [hph] at h1
    by_cases e : c2 = c
    · simp [e] at h1
      subst h1
      simp [regIdx] at h2
      subst h2
      rw [e]
      exact hI.heldReg c (Phase.registered i) i hc rfl
    · simp [e] at h1
      exact hI.heldReg c2 p i2 h1 h2
  · intro c2 p h1 h2
    rw [hph] at h1
    by_cases e : c2 = c
    · rw [e]
    · simp [e] at h1
      rw [hnoLock c2 p h1] at h2
      exact absurd h2 (by simp)
  · intro c2 h1
    have h2 : some c = some c2 := h1
    obtain rfl := Option.some.inj h2
    refine ⟨Phase.inLockA i, ?_, rfl⟩
    rw [hph]
    simp
  · intro c2 i2 h1
    rw [hph] at h1
    by_cases e : c2 = c
    · simp [e] at h1
    · simp [e] at h1
      have := hnoLock c2 _ h1
      simp [inLockPhase] at this
  · intro _
    apply hI.chunksNoB
    intro c2 i2 hcon
    have := hnoLock c2 _ hcon
    simp [inLockPhase] at this

theorem inv_chunkA {s : SysState} {c : Nat} {s2 : SysState} (hI : Inv s)
    (h : step s (Event.chunkA c) = some s2) : Inv s2 := by
  simp only [step] at h
  split at h
  case h_2 => exact absurd h (by simp)
  case h_1 i hc =>
  obtain rfl := Option.some.inj h
  have hlt : c < s.callers.length := phaseOf_lt hc
  have hw : s.writeLock = some c := hI.lockOwner c _ hc rfl
  have hph : ∀ c2, phaseOf { setPhase s c (Phase.inLockB i) with
      chunks := s.chunks ++ [(c, true)] } c2 =
      if c2 = c then some (Phase.inLockB i) else phaseOf s c2 := by
    intro c2
    show (s.callers.set c _)[c2]? = _
    rw [getElem_set_phase hlt]
    rfl
  have hnoB : ∀ c2 i2, phaseOf s c2 ≠ some (Phase.inLockB i2) := by
    intro c2 i2 hcon
    have h2 : s.writeLock = some c2 := hI.lockOwner c2 _ hcon rfl
    rw [hw] at h2
    obtain rfl := Option.some.inj h2
    rw [hc] at hcon
    exact absurd (Option.some.inj hcon) (by simp)
  have hclosed : chunksClosed s.chunks = true := hI.chunksNoB hnoB
  refine ⟨hI.allocLt, hI.allocInc, hI.regLt, hI.regNodup, ?_, ?_, ?_, ?_,
    hI.pendReg, hI.pendNotDone, hI.resReg, ?_, ?_, ?_, ?_, hI.wireReg⟩
  · intro c2 p i2 h1 h2
    rw [hph] at h1
    by_cases e : c2 = c
    · simp [e] at h1
      subst h1
      simp [holdsId] at h2
      subst h2
      exact hI.heldLt c (Phase.inLockA i) i hc rfl
    · simp [e] at h1
      exact hI.heldLt c2 p i2 h1 h2
  · intro c1 c2 p1 p2 i2 h1 h2 h3 h4
    rw [hph] at h1 h2
    by_cases e1 : c1 = c
    · by_cases e2 : c2 = c
      · rw [e1, e2]
      · simp [e1] at h1
        subst h1
        simp [holdsId] at h3
        subst h3
        simp [e2] at h2
        rw [e1]
        exact hI.heldInj c c2 (Phase.inLockA i) p2 i hc h2 rfl h4
    · by_cases e2 : c2 = c
      · simp [e2] at h2
        subst h2
        simp [holdsId] at h4
        subst h4
        simp [e1] at h1
        rw [e2]
        exact hI.heldInj c1 c p1 (Phase.inLockA i) i h1 hc h3 rfl
      · simp [e1] at h1; simp [e2] at h2
        exact hI.heldInj c1 c2 p1 p2 i2 h1 h2 h3 h4
  · intro c2 i2 h1
    rw [hph] at h1
    by_cases e : c2 = c
    · simp [e] at h1
    · simp [e] at h1
      exact hI.gotFresh c2 i2 h1
  · intro c2 p i2 h1 h2
    rw [hph] at h1
    by_cases e : c2 = c
    · simp [e] at h1
      subst h1
      simp [regIdx] at h2
      subst h2
      rw [e]
      exact hI.heldReg c (Phase.inLockA i) i hc rfl
    · simp [e] at h1
      exact hI.heldReg c2 p i2 h1 h2
  · intro c2 p h1 h2
    rw [hph] at h1
    by_cases e : c2 = c
    · rw [e]
      exact hw
    · simp [e] at h1
      exact hI.lockOwner c2 p h1 h2
  · intro c2 h1
    have h2 : s.writeLock = some c2 := h1
    rw [hw] at h2
    obtain rfl := Option.some.inj h2
    refine ⟨Phase.inLockB i, ?_, rfl⟩
    rw [hph]
    simp
  · intro c2 i2 h1
    rw [hph] at h1
    by_cases e : c2 = c
    · subst e
      simp only [if_pos rfl] at h1
      obtain hii := Option.some.inj h1
      refine ⟨s.chunks, ?_, hclosed⟩
      rfl
    · simp [e] at h1
      exact absurd h1 (hnoB c2 i2)
  · intro h1
    have := h1 c i
    rw [hph] at this
    simp at this

theorem inv_chunkB {s : SysState} {c : Nat} {s2 : SysState} (hI : Inv s)
    (h : step s (Event.chunkB c) = some s2) : Inv s2 := by
  simp only [step] at h
  split at h
  case h_2 => exact absurd h (by simp)
  case h_1 i hc =>
  obtain rfl := Option.some.inj h
  have hlt : c < s.callers.length := phaseOf_lt hc
  have hw : s.writeLock = some c := hI.lockOwner c _ hc rfl
  have hph : ∀ c2, phaseOf { setPhase s c (Phase.inLockC i) with
      chunks := s.chunks ++ [(c, false)], wire := s.wire ++ [i] } c2 =
      if c2 = c then some (Phase.inLockC i) else phaseOf s c2 := by
    intro c2
    show (s.callers.set c _)[c2]? = _
    rw [getElem_set_phase hlt]
    rfl
  obtain ⟨lc, hlc, hlcClosed⟩ := hI.chunksB c i hc
  refine ⟨hI.allocLt, hI.allocInc, hI.regLt, hI.regNodup, ?_, ?_, ?_, ?_,
    hI.pendReg, hI.pendNotDone, hI.resReg, ?_, ?_, ?_, ?_, ?_⟩
  · intro c2 p i2 h1 h2
    rw [hph] at h1
    by_cases e : c2 = c
    · simp [e] at h1
      subst h1
      simp [holdsId] at h2
      subst h2
      exact hI.heldLt c (Phase.inLockB i) i hc rfl
    · simp [e] at h1
      exact hI.heldLt c2 p i2 h1 h2
  · intro c1 c2 p1 p2 i2 h1 h2 h3 h4
    rw [hph] at h1 h2
    by_cases e1 : c1 = c
    · by_cases e2 : c2 = c
      · rw [e1, e2]
      · simp [e1] at h1
        subst h1
        simp [holdsId] at h3
        subst h3
        simp [e2] at h2
        rw [e1]
        exact hI.heldInj c c2 (Phase.inLockB i) p2 i hc h2 rfl h4
    · by_cases e2 : c2 = c
      · simp [e2] at h2
        subst h2
        simp [holdsId] at h4
        subst h4
        simp [e1] at h1
        rw [e2]
        exact hI.heldInj c1 c p1 (Phase.inLockB i) i h1 hc h3 rfl
      · simp [e1] at h1; simp [e2] at h2
        exact hI.heldInj c1 c2 p1 p2 i2 h1 h2 h3 h4
  · intro c2 i2 h1
    rw [hph] at h1
    by_cases e : c2 = c
    · simp [e] at h1
    · simp [e] at h1
      exact hI.gotFresh c2 i2 h1
  · intro c2 p i2 h1 h2
    rw [hph] at h1
    by_cases e : c2 = c
    · simp [e] at h1
      subst h1
      simp [regIdx] at h2
      subst h2
      rw [e]
      exact hI.heldReg c (Phase.inLockB i) i hc rfl
    · simp [e] at h1
      exact hI.heldReg c2 p i2 h1 h2
  · intro c2 p h1 h2
    rw [hph] at h1
    by_cases e : c2 = c
    · rw [e]
      exact hw
    · simp [e] at h1
      exact hI.lockOwner c2 p h1 h2
  · intro c2 h1
    have h2 : s.writeLock = some c2 := h1
    rw [hw] at h2
    obtain rfl := Option.some.inj h2
    refine ⟨Phase.inLockC i, ?_, rfl⟩
    rw [hph]
    simp
  · intro c2 i2 h1
    rw [hph] at h1
    by_cases e : c2 = c
    · simp [e] at h1
    · simp [e] at h1
      have h2 : s.writeLock = some c2 := hI.lockOwner c2 _ h1 rfl
      rw [hw] at h2
      exact absurd (Option.some.inj h2).symm e
  · intro _
    show chunksClosed (s.chunks ++ [(c, false)]) = true
    rw [hlc, List.append_assoc]
    exact chunksClosed_append_pair hlcClosed
  · intro i2 h1
    have h2 : i2 ∈ s.wire ++ [i] := h1
    simp only [List.mem_append, List.mem_singleton] at h2
    rcases h2 with h2 | h2
    · exact hI.wireReg i2 h2
    · subst h2
      obtain ⟨g, hg⟩ := hI.heldReg c (Phase.inLockB i2) i2 hc rfl
      exact ⟨c, g, hg⟩

theorem inv_release {s : SysState} {c : Nat} {s2 : SysState} (hI : Inv s)
    (h : step s (Event.release c) = some s2) : Inv s2 := by
  simp only [step] at h
  split at h
  case h_2 => exact absurd h (by simp)
  case h_1 i hc =>
  obtain rfl := Option.some.inj h
  have hlt : c < s.callers.length := phaseOf_lt hc
  have hw : s.writeLock = some c := hI.lockOwner c _ hc rfl
  have hph : ∀ c2, phaseOf { setPhase s c (Phase.waiting i) with writeLock := none } c2 =
      if c2 = c then some (Phase.waiting i) else phaseOf s c2 := by
    intro c2
    show (s.callers.set c _)[c2]? = _
    rw [getElem_set_phase hlt]
    rfl
  have hnoOther : ∀ c2 p2, c2 ≠ c → phaseOf s c2 = some p2 → inLockPhase p2 = false := by
    intro c2 p2 e h2
    by_contra hcon
    have h3 := hI.lockOwner c2 p2 h2 (by simpa using hcon)
    rw [hw] at h3
    exact e (Option.some.inj h3).symm
  refine ⟨hI.allocLt, hI.allocInc, hI.regLt, hI.regNodup, ?_, ?_, ?_, ?_,
    hI.pendReg, hI.pendNotDone, hI.resReg, ?_, ?_, ?_, ?_, hI.wireReg⟩
  · intro c2 p i2 h1 h2
    rw [hph] at h1
    by_cases e : c2 = c
    · simp [e] at h1
      subst h1
      simp [holdsId] at h2
      subst h2
      exact hI.heldLt c (Phase.inLockC i) i hc rfl
    · simp [e] at h1
      exact hI.heldLt c2 p i2 h1 h2
  · intro c1 c2 p1 p2 i2 h1 h2 h3 h4
    rw [hph] at h1 h2
    by_cases e1 : c1 = c
    · by_cases e2 : c2 = c
      · rw [e1, e2]
      · simp [e1] at h1
        subst h1
        simp [holdsId] at h3
        subst h3
        simp [e2] at h2
        rw [e1]
        exact hI.heldInj c c2 (Phase.inLockC i) p2 i hc h2 rfl h4
    · by_cases e2 : c2 = c
      · simp [e2] at h2
        subst h2
        simp [holdsId] at h4
        subst h4
        simp [e1] at h1
        rw [e2]
        exact hI.heldInj c1 c p1 (Phase.inLockC i) i h1 hc h3 rfl
      · simp [e1] at h1; simp [e2] at h2
        exact hI.heldInj c1 c2 p1 p2 i2 h1 h2 h3 h4
  · intro c2 i2 h1
    rw [hph] at h1
    by_cases e : c2 = c
    · simp [e] at h1
    · simp [e] at h1
      exact hI.gotFresh c2 i2 h1
  · intro c2 p i2 h1 h2
    rw [hph] at h1
    by_cases e : c2 = c
    · simp [e] at h1
      subst h1
      simp [regIdx] at h2
      subst h2
      rw [e]
      exact hI.heldReg c (Phase.inLockC i) i hc rfl
    · simp [e] at h1
      exact hI.heldReg c2 p i2 h1 h2
  · intro c2 p h1 h2
    rw [hph] at h1
    by_cases e : c2 = c
    · simp [e] at h1
      subst h1
      simp [inLockPhase] at h2
    · simp [e] at h1
      rw [hnoOther c2 p e h1] at h2
      exact absurd h2 (by simp)
  · intro c2 h1
    exact absurd h1 (by simp)
  · intro c2 i2 h1
    rw [hph] at h1
    by_cases e : c2 = c
    · simp [e] at h1
    · simp [e] at h1
      have := hnoOther c2 _ e h1
      simp [inLockPhase] at this
  · intro _
    apply hI.chunksNoB
    intro c2 i2 hcon
    by_cases e : c2 = c
    · subst e
      rw [hc] at hcon
      exact absurd (Option.some.inj hcon) (by simp)
    · have := hnoOther c2 _ e hcon
      simp [inLockPhase] at this

theorem inv_writeFail {s : SysState} {c : Nat} {s2 : SysState} (hI : Inv s)
    (h : step s (Event.writeFail c) = some s2) : Inv s2 := by
  simp only [step] at h
  split at h
  case h_2 => exact absurd h (by simp)
  case h_1 i hc =>
  split at h
  case isTrue => exact absurd h (by simp)
  case isFalse hpa =>
  obtain rfl := Option.some.inj h
  have hlt : c < s.callers.length := phaseOf_lt hc
  have hw : s.writeLock = some c := hI.lockOwner c _ hc rfl
  have hph : ∀ c2, phaseOf { setPhase s c (Phase.done Outcome.localError) with
      pending := aerase s.pending i, writeLock := none } c2 =
      if c2 = c then some (Phase.done Outcome.localError) else phaseOf s c2 := by
    intro c2
    show (s.callers.set c _)[c2]? = _
    rw [getElem_set_phase hlt]
    rfl
  have hnoOther : ∀ c2 p2, c2 ≠ c → phaseOf s c2 = some p2 → inLockPhase p2 = false := by
    intro c2 p2 e h2
    by_contra hcon
    have h3 := hI.lockOwner c2 p2 h2 (by simpa using hcon)
    rw [hw] at h3
    exact e (Option.some.inj h3).symm
  refine ⟨hI.allocLt, hI.allocInc, hI.regLt, hI.regNodup, ?_, ?_, ?_, ?_,
    ?_, ?_, hI.resReg, ?_, ?_, ?_, ?_, hI.wireReg⟩
  · intro c2 p i2 h1 h2
    rw [hph] at h1
    by_cases e : c2 = c
    · simp [e] at h1
      subst h1
      simp [holdsId] at h2
    · simp [e] at h1
      exact hI.heldLt c2 p i2 h1 h2
  · intro c1 c2 p1 p2 i2 h1 h2 h3 h4
    rw [hph] at h1 h2
    by_cases e1 : c1 = c
    · simp [e1] at h1
      subst h1
      simp [holdsId] at h3
    · by_cases e2 : c2 = c
      · simp [e2] at h2
        subst h2
        simp [holdsId] at h4
      · simp [e1] at h1; simp [e2] at h2
        exact hI.heldInj c1 c2 p1 p2 i2 h1 h2 h3 h4
  · intro c2 i2 h1
    rw [hph] at h1
    by_cases e : c2 = c
    · simp [e] at h1
    · simp [e] at h1
      exact hI.gotFresh c2 i2 h1
  · intro c2 p i2 h1 h2
    rw [hph] at h1
    by_cases e : c2 = c
    · simp [e] at h1
      subst h1
      simp [regIdx] at h2
    · simp [e] at h1
      exact hI.heldReg c2 p i2 h1 h2
  · intro q hq
    have hq2 : q ∈ aerase s.pending i := hq
    rw [mem_aerase] at hq2
    exact hI.pendReg q hq2.1
  · intro q hq
    have hq2 : q ∈ aerase s.pending i := hq
    rw [mem_aerase] at hq2
    exact hI.pendNotDone q hq2.1
  · intro c2 p h1 h2
    rw [hph] at h1
    by_cases e : c2 = c
    · simp [e] at h1
      subst h1
      simp [inLockPhase] at h2
    · simp [e] at h1
      rw [hnoOther c2 p e h1] at h2
      exact absurd h2 (by simp)
  · intro c2 h1
    exact absurd h1 (by simp)
  · intro c2 i2 h1
    rw [hph] at h1
    by_cases e : c2 = c
    · simp [e] at h1
    · simp [e] at h1
      have := hnoOther c2 _ e h1
      simp [inLockPhase] at this
  · intro _
    apply hI.chunksNoB
    intro c2 i2 hcon
    by_cases e : c2 = c
    · subst e
      rw [hc] at hcon
      exact absurd (Option.some.inj hcon) (by simp)
    · have := hnoOther c2 _ e hcon
      simp [inLockPhase] at this

theorem inv_timeoutPop {s : SysState} {c : Nat} {s2 : SysState} (hI : Inv s)
    (h : step s (Event.timeoutPop c) = some s2) : Inv s2 := by
  simp only [step] at h
  split at h
  case h_2 => exact absurd h (by simp)
  case h_1 i hc =>
  split at h
  case h_2 => exact absurd h (by simp)
  case h_1 hres =>
  obtain rfl := Option.some.inj h
  have hlt : c < s.callers.length := phaseOf_lt hc
  have hph : ∀ c2, phaseOf { setPhase s c (Phase.tRestarting i) with
      pending := aerase s.pending i } c2 =
      if c2 = c then some (Phase.tRestarting i) else phaseOf s c2 := by
    intro c2
    show (s.callers.set c _)[c2]? = _
    rw [getElem_set_phase hlt]
    rfl
  refine ⟨hI.allocLt, hI.allocInc, hI.regLt, hI.regNodup, ?_, ?_, ?_, ?_,
    ?_, ?_, hI.resReg, ?_, ?_, ?_, ?_, hI.wireReg⟩
  · intro c2 p i2 h1 h2
    rw [hph] at h1
    by_cases e : c2 = c
    · simp [e] at h1
      subst h1
      simp [holdsId] at h2
      subst h2
      exact hI.heldLt c (Phase.waiting i) i hc rfl
    · simp [e] at h1
      exact hI.heldLt c2 p i2 h1 h2
  · intro c1 c2 p1 p2 i2 h1 h2 h3 h4
    rw [hph] at h1 h2
    by_cases e1 : c1 = c
    · by_cases e2 : c2 = c
      · rw [e1, e2]
      · simp [e1] at h1
        subst h1
        simp [holdsId] at h3
        subst h3
        simp [e2] at h2
        rw [e1]
        exact hI.heldInj c c2 (Phase.waiting i) p2 i hc h2 rfl h4
    · by_cases e2 : c2 = c
      · simp [e2] at h2
        subst h2
        simp [holdsId] at h4
        subst h4
        simp [e1] at h1
        rw [e2]
        exact hI.heldInj c1 c p1 (Phase.waiting i) i h1 hc h3 rfl
      · simp [e1] at h1; simp [e2] at h2
        exact hI.heldInj c1 c2 p1 p2 i2 h1 h2 h3 h4
  · intro c2 i2 h1
    rw [hph] at h1
    by_cases e : c2 = c
    · simp [e] at h1
    · simp [e] at h1
      exact hI.gotFresh c2 i2 h1
  · intro c2 p i2 h1 h2
    rw [hph] at h1
    by_cases e : c2 = c
    · simp [e] at h1
      subst h1
      simp [regIdx] at h2
      subst h2
      rw [e]
      exact hI.heldReg c (Phase.waiting i) i hc rfl
    · simp [e] at h1
      exact hI.heldReg c2 p i2 h1 h2
  · intro q hq
    have hq2 : q ∈ aerase s.pending i := hq
    rw [mem_aerase] at hq2
    exact hI.pendReg q hq2.1
  · intro q hq
    have hq2 : q ∈ aerase s.pending i := hq
    rw [mem_aerase] at hq2
    exact hI.pendNotDone q hq2.1
  · intro c2 p h1 h2
    rw [hph] at h1
    by_cases e : c2 = c
    · simp [e] at h1
      subst h1
      simp [inLockPhase] at h2
    · simp [e] at h1
      exact hI.lockOwner c2 p h1 h2
  · intro c2 h1
    obtain ⟨p, hp, hpl⟩ := hI.lockHeld c2 h1
    by_cases e : c2 = c
    · subst e
      rw [hc] at hp
      obtain rfl := Option.some.inj hp
      simp [inLockPhase] at hpl
    · exact ⟨p, by rw [hph]; simp [e, hp], hpl⟩
  · intro c2 i2 h1
    rw [hph] at h1
    by_cases e : c2 = c
    · simp [e] at h1
    · simp [e] at h1
      exact hI.chunksB c2 i2 h1
  · intro h1
    apply hI.chunksNoB
    intro c2 i2
    by_cases e : c2 = c
    · subst e; rw [hc]; simp
    · have := h1 c2 i2
      rw [hph] at this
      simpa [e] using this

theorem inv_pollCheck {s : SysState} {c : Nat} {s2 : SysState} (hI : Inv s)
    (h : step s (Event.pollCheck c) = some s2) : Inv s2 := by
  simp only [step] at h
  split at h
  case h_2 => exact absurd h (by simp)
  case h_1 hc =>
  split at h
  case isTrue =>
    obtain rfl := Option.some.inj h
    exact inv_setPhase_plain hI hc rfl rfl rfl rfl (by intro i hcon; exact absurd hcon (by simp))
      (by intro i hcon; exact absurd hcon (by simp))
  case isFalse =>
  split at h
  case isFalse => exact absurd h (by simp)
  case isTrue hwl =>
  obtain rfl := Option.some.inj h
  exact inv_restart_set hI hc hwl rfl rfl rfl
    (by intro i hcon; exact absurd hcon (by simp))
    (by intro i hcon; exact absurd hcon (by simp))

theorem inv_finish {s : SysState} {c : Nat} {s2 : SysState} (hI : Inv s)
    (h : step s (Event.finish c) = some s2) : Inv s2 := by
  simp only [step] at h
  split at h
  case h_2 => exact absurd h (by simp)
  case h_1 i hc =>
  split at h
  case h_2 => exact absurd h (by simp)
  case h_1 o hres =>
  obtain rfl := Option.some.inj h
  exact inv_setPhase_plain hI hc rfl rfl rfl rfl (by intro i2 hcon; exact absurd hcon (by simp))
    (by intro i2 hcon; exact absurd hcon (by simp))

theorem inv_timeoutRestart {s : SysState} {c : Nat} {s2 : SysState} (hI : Inv s)
    (h : step s (Event.timeoutRestart c) = some s2) : Inv s2 := by
  simp only [step] at h
  split at h
  case h_2 => exact absurd h (by simp)
  case h_1 i hc =>
  split at h
  case isFalse => exact absurd h (by simp)
  case isTrue hwl =>
  obtain rfl := Option.some.inj h
  exact inv_restart_set hI hc hwl rfl rfl rfl
    (by intro i2 hcon; exact absurd hcon (by simp))
    (by intro i2 hcon; exact absurd hcon (by simp))

theorem inv_respond {s : SysState} {i : Int} {p : Payload} {s2 : SysState} (hI : Inv s)
    (h : step s (Event.respond i p) = some s2) : Inv s2 := by
  simp only [step] at h
  split at h
  case isFalse => exact absurd h (by simp)
  case isTrue hwire =>
  split at h
  case h_2 hnone =>
    obtain rfl := Option.some.inj h
    exact hI
  case h_1 c0 hfound =>
  have hmem : (i, c0) ∈ s.pending := alookup_mem hfound
  split at h
  case h_2 o hdone =>
    obtain rfl := Option.some.inj h
    refine ⟨hI.allocLt, hI.allocInc, hI.regLt, hI.regNodup, hI.heldLt, hI.heldInj,
      hI.gotFresh, hI.heldReg, ?_, ?_, hI.resReg, hI.lockOwner, hI.lockHeld,
      hI.chunksB, hI.chunksNoB, hI.wireReg⟩
    · intro q hq
      have hq2 : q ∈ aerase s.pending i := hq
      rw [mem_aerase] at hq2
      exact hI.pendReg q hq2.1
    · intro q hq
      have hq2 : q ∈ aerase s.pending i := hq
      rw [mem_aerase] at hq2
      exact hI.pendNotDone q hq2.1
  case h_1 hnotdone =>
  obtain rfl := Option.some.inj h
  refine ⟨hI.allocLt, hI.allocInc, hI.regLt, hI.regNodup, hI.heldLt, hI.heldInj,
    hI.gotFresh, hI.heldReg, ?_, ?_, ?_, hI.lockOwner, hI.lockHeld,
    hI.chunksB, hI.chunksNoB, hI.wireReg⟩
  · intro q hq
    have hq2 : q ∈ aerase s.pending i := hq
    rw [mem_aerase] at hq2
    exact hI.pendReg q hq2.1
  · intro q hq
    have hq2 : q ∈ aerase s.pending i := hq
    rw [mem_aerase] at hq2
    obtain ⟨hq3, hq4⟩ := hq2
    show findRes (s.resolved ++ [(i, c0, p.outcome)]) q.1 q.2 = none
    rw [findRes_append_of_none (hI.pendNotDone q hq3)]
    have : ¬(i = q.1 ∧ c0 = q.2) := fun hx => hq4 (hx.1.symm)
    simp only [findRes, if_neg this]
  · intro r hr
    have hr2 : r ∈ s.resolved ++ [(i, c0, p.outcome)] := hr
    simp only [List.mem_append, List.mem_singleton] at hr2
    rcases hr2 with hr2 | hr2
    · exact hI.resReg r hr2
    · subst hr2
      exact hI.pendReg (i, c0) hmem

theorem inv_procExit {s : SysState} {s2 : SysState} (hI : Inv s)
    (h : step s Event.procExit = some s2) : Inv s2 := by
  simp only [step] at h
  split at h
  case isFalse => exact absurd h (by simp)
  case isTrue =>
  obtain rfl := Option.some.inj h
  exact ⟨hI.allocLt, hI.allocInc, hI.regLt, hI.regNodup, hI.heldLt, hI.heldInj,
    hI.gotFresh, hI.heldReg, hI.pendReg, hI.pendNotDone, hI.resReg, hI.lockOwner,
    hI.lockHeld, hI.chunksB, hI.chunksNoB, hI.wireReg⟩

/-- Every step of the machine preserves the invariant. -/
theorem step_inv {s : SysState} {e : Event} {s2 : SysState} (hI : Inv s)
    (h : step s e = some s2) : Inv s2 := by
  cases e with
  | pollCheck c => exact inv_pollCheck hI h
  | getId c => exact inv_getId hI h
  | register c => exact inv_register hI h
  | acquire c => exact inv_acquire hI h
  | chunkA c => exact inv_chunkA hI h
  | chunkB c => exact inv_chunkB hI h
  | release c => exact inv_release hI h
  | writeFail c => exact inv_writeFail hI h
  | finish c => exact inv_finish hI h
  | timeoutPop c => exact inv_timeoutPop hI h
  | timeoutRestart c => exact inv_timeoutRestart hI h
  | respond i p => exact inv_respond hI h
  | procExit => exact inv_procExit hI h

/-- The invariant holds in every state reachable from an invariant state. -/
theorem run_inv {tr : List Event} {s s2 : SysState} (hI : Inv s)
    (h : run s tr = some s2) : Inv s2 := by
  induction tr generalizing s with
  | nil =>
    simp only [run] at h
    obtain rfl := Option.some.inj h
    exact hI
  | cons e t ih =>
    simp only [run] at h
    split at h
    case h_2 => exact absurd h (by simp)
    case h_1 s3 hstep => exact ih (step_inv hI hstep) h

/-- Two registrations recorded with distinct restart generations carry
distinct request ids (ids are never reused across registrations). -/
theorem regLog_id_inj {s : SysState} (hI : Inv s) {i1 i2 : Int} {c1 c2 g1 g2 : Nat}
    (h1 : (i1, c1, g1) ∈ s.regLog) (h2 : (i2, c2, g2) ∈ s.regLog)
    (hg : g1 ≠ g2) : i1 ≠ i2 := by
  intro he
  subst he
  have heq := List.inj_on_of_nodup_map hI.regNodup h1 h2 rfl
  simp only [Prod.mk.injEq] at heq
  exact hg heq.2.2

section Claims

/-! ### Claim theorems -/

/-- C2: the claim states that a handshake that fails or times out is fatal
for the generation, the error propagating to the caller that triggered the
spawn, with no unbounded retry loop.  The code satisfies this for an
error-failed handshake (second conjunct: the exception propagates after a
single attempt), but for a handshake that consistently times out the
recursion `_send_request` -> `_restart_subprocess` -> `_start_subprocess`
-> `_initialize` -> `_send_request` never terminates: for every fuel bound
the recursion is still running (first conjunct), so the supervisor does
recurse forever, contradicting the claim - a defect in the code. -/
theorem C2_handshake_timeout_recursion_diverges :
    (∀ gen fuel, startLoop (fun _ => HsBehavior.timeout) gen fuel = none) ∧
    (∀ gen fuel, startLoop (fun _ => HsBehavior.errorResp) gen (fuel + 1) =
      some StartOutcome.raised) := by
  constructor
  · intro gen fuel
    induction fuel generalizing gen with
    | zero => rfl
    | succ f ih =>
      show (match startLoop (fun _ => HsBehavior.timeout) (gen + 1) f with
        | none => none
        | some StartOutcome.started => some StartOutcome.raised
        | some StartOutcome.raised => some StartOutcome.raised) = none
      rw [ih (gen + 1)]
  · intro gen fuel
    rfl

/-- C6: in every reachable state, the sequence of request ids in
allocation order (the successive return values of `_get_id`, which is the
single allocation point, executed under `self._write_lock`) is strictly
increasing, hence the ids are pairwise distinct. -/
theorem C6_ids_strictly_increasing (n : Nat) (tr : List Event) (s : SysState)
    (hrun : run (initState n) tr = some s) :
    s.allocLog.Pairwise (fun a b => a < b) :=
  (run_inv (inv_init n) hrun).allocInc

/-- C6 witness. -/
def trC6 : List Event :=
  [Event.pollCheck 0, Event.pollCheck 1, Event.getId 0, Event.getId 1,
   Event.register 0, Event.register 1]

def sC6 : SysState := (run (initState 2) trC6).getD (initState 2)

theorem C6_ids_strictly_increasing_witness :
    sC6.allocLog.Pairwise (fun a b => a < b) :=
  C6_ids_strictly_increasing 2 trC6 sC6 (by decide)

/-- C9: the id counter survives restarts: in every reachable state - with
restarts allowed anywhere in the trace - the allocation sequence is still
strictly increasing (hence pairwise distinct across the whole lifetime of
the client), and neither restart step (`_restart_subprocess` reached from
the timeout handler or from the poll check) changes `_next_id` or the
allocation history. -/
theorem C9_id_counter_never_reset (n : Nat) (tr : List Event) (s : SysState)
    (hrun : run (initState n) tr = some s) :
    s.allocLog.Pairwise (fun a b => a < b) ∧
    (∀ c s2, step s (Event.timeoutRestart c) = some s2 →
      s2.nextId = s.nextId ∧ s2.allocLog = s.allocLog) ∧
    (∀ c s2, step s (Event.pollCheck c) = some s2 →
      s2.nextId = s.nextId ∧ s2.allocLog = s.allocLog) := by
  refine ⟨(run_inv (inv_init n) hrun).allocInc, ?_, ?_⟩
  · intro c s2 h
    simp only [step] at h
    split at h
    case h_2 => exact absurd h (by simp)
    case h_1 i hc =>
    split at h
    case isFalse => exact absurd h (by simp)
    case isTrue =>
    obtain rfl := Option.some.inj h
    exact ⟨rfl, rfl⟩
  · intro c s2 h
    simp only [step] at h
    split at h
    case h_2 => exact absurd h (by simp)
    case h_1 hc =>
    split at h
    case isTrue =>
      obtain rfl := Option.some.inj h
      exact ⟨rfl, rfl⟩
    case isFalse =>
    split at h
    case isFalse => exact absurd h (by simp)
    case isTrue =>
    obtain rfl := Option.some.inj h
    exact ⟨rfl, rfl⟩

/-- C9 witness: a trace containing a restart. -/
def trC9 : List Event :=
  [Event.pollCheck 0, Event.getId 0, Event.register 0, Event.acquire 0,
   Event.chunkA 0, Event.chunkB 0, Event.release 0, Event.timeoutPop 0,
   Event.timeoutRestart 0, Event.pollCheck 1, Event.getId 1]

def sC9 : SysState := (run (initState 2) trC9).getD (initState 2)

theorem C9_id_counter_never_reset_witness :
    sC9.allocLog.Pairwise (fun a b => a < b) :=
  (C9_id_counter_never_reset 2 trC9 sC9 (by decide)).1

/-- C8: in every reachable state the bytes written to the subprocess's
stdin form a sequence of complete request lines - possibly with one
in-progress first fragment at the end - with the fragments of no two
requests interleaved (the whole encode-and-write runs under
`self._write_lock`); and every id on the wire was registered in
`_pending_requests` before its write happened, so a response (which the
subprocess can only produce for a request it received) never arrives
before its waiter is registered. -/
theorem C8_no_interleaving_register_before_write (n : Nat) (tr : List Event)
    (s : SysState) (hrun : run (initState n) tr = some s) :
    (chunksClosed s.chunks = true ∨
      ∃ l c, s.chunks = l ++ [(c, true)] ∧ chunksClosed l = true) ∧
    (∀ i ∈ s.wire, ∃ c g, (i, c, g) ∈ s.regLog) := by
  have hI := run_inv (inv_init n) hrun
  constructor
  · by_cases hB : ∃ c i, phaseOf s c = some (Phase.inLockB i)
    · obtain ⟨c, i, hc⟩ := hB
      obtain ⟨l, hl, hcl⟩ := hI.chunksB c i hc
      exact Or.inr ⟨l, c, hl, hcl⟩
    · push_neg at hB
      exact Or.inl (hI.chunksNoB fun c i => hB c i)
  · exact hI.wireReg

/-- C8 witness. -/
def trC8 : List Event :=
  [Event.pollCheck 0, Event.pollCheck 1, Event.getId 0, Event.getId 1,
   Event.register 0, Event.register 1, Event.acquire 0, Event.chunkA 0,
   Event.chunkB 0, Event.release 0, Event.acquire 1, Event.chunkA 1]

def sC8 : SysState := (run (initState 2) trC8).getD (initState 2)

theorem C8_no_interleaving_register_before_write_witness :
    (chunksClosed sC8.chunks = true ∨
      ∃ l c, sC8.chunks = l ++ [(c, true)] ∧ chunksClosed l = true) ∧
    (∀ i ∈ sC8.wire, ∃ c g, (i, c, g) ∈ sC8.regLog) :=
  C8_no_interleaving_register_before_write 2 trC8 sC8 (by decide)

/-- C1: a late response whose id was registered under an earlier (retired)
restart generation never touches a request registered under a later
generation: the two ids are necessarily different (the id counter is
never reset, so ids are never reused across generations), hence the
reader's pop-and-resolve for the stale id neither removes the newer
waiter from the pending table nor records any resolution for it - no live
waiter of the current generation is ever resolved by a stale response. -/
theorem C1_stale_response_resolves_no_live_waiter (n : Nat) (tr : List Event)
    (s s2 : SysState) (i1 i2 : Int) (c1 c2 g1 g2 : Nat) (p : Payload)
    (hrun : run (initState n) tr = some s)
    (h1 : (i1, c1, g1) ∈ s.regLog)
    (h2 : (i2, c2, g2) ∈ s.regLog)
    (hg : g1 < g2)
    (hstep : step s (Event.respond i1 p) = some s2) :
    i1 ≠ i2 ∧
    ((i2, c2) ∈ s.pending → (i2, c2) ∈ s2.pending) ∧
    findRes s2.resolved i2 c2 = findRes s.resolved i2 c2 := by
  have hI := run_inv (inv_init n) hrun
  have hne : i1 ≠ i2 := regLog_id_inj hI h1 h2 (by omega)
  refine ⟨hne, ?_⟩
  simp only [step] at hstep
  split at hstep
  case isFalse => exact absurd hstep (by simp)
  case isTrue hwire =>
  split at hstep
  case h_2 =>
    obtain rfl := Option.some.inj hstep
    exact ⟨fun x => x, rfl⟩
  case h_1 c0 hfound =>
  split at hstep
  case h_1 hnotdone =>
    obtain rfl := Option.some.inj hstep
    constructor
    · intro hmem
      show (i2, c2) ∈ aerase s.pending i1
      rw [mem_aerase]
      exact ⟨hmem, fun e => hne e.symm⟩
    · show findRes (s.resolved ++ [(i1, c0, p.outcome)]) i2 c2 = findRes s.resolved i2 c2
      cases hfr : findRes s.resolved i2 c2 with
      | some o => exact findRes_append_of_some hfr
      | none =>
        rw [findRes_append_of_none hfr]
        have : ¬(i1 = i2 ∧ c0 = c2) := fun hx => hne hx.1
        simp only [findRes, if_neg this]
  case h_2 o hdone =>
    obtain rfl := Option.some.inj hstep
    constructor
    · intro hmem
      show (i2, c2) ∈ aerase s.pending i1
      rw [mem_aerase]
      exact ⟨hmem, fun e => hne e.symm⟩
    · rfl

/-- C1 witness: caller 0 registers id 1 in generation 0, a restart retires
that generation, caller 1 registers id 2 in generation 1; a late response
for id 1 leaves caller 1's pending entry and resolution state untouched. -/
def trC1 : List Event :=
  [Event.pollCheck 0, Event.getId 0, Event.register 0, Event.acquire 0,
   Event.chunkA 0, Event.chunkB 0, Event.release 0, Event.timeoutPop 0,
   Event.timeoutRestart 0, Event.pollCheck 1, Event.getId 1, Event.register 1]

def sC1 : SysState := (run (initState 2) trC1).getD (initState 2)

def sC1r : SysState := (step sC1 (Event.respond 1 (Payload.ok 5))).getD sC1

theorem C1_stale_response_resolves_no_live_waiter_witness :
    (1 : Int) ≠ 2 ∧
    ((2, 1) ∈ sC1.pending → ((2 : Int), 1) ∈ sC1r.pending) ∧
    findRes sC1r.resolved 2 1 = findRes sC1.resolved 2 1 :=
  C1_stale_response_resolves_no_live_waiter 2 trC1 sC1 sC1r 1 2 0 1 0 1
    (Payload.ok 5) (by decide) (by decide) (by decide) (by decide) (by decide)

/-! ### C3: restarts under concurrent timeouts -/

def isRegisterEvent : Event → Bool
  | Event.register _ => true
  | _ => false

def isTimeoutPopEvent : Event → Bool
  | Event.timeoutPop _ => true
  | _ => false

def isTimeoutRestartEvent : Event → Bool
  | Event.timeoutRestart _ => true
  | _ => false

/-- `true` when no registration happens after a timeout has fired: the
trace describes a single incident of simultaneously pending calls whose
deadlines then elapse. -/
def noRegisterAfterTimeout : Bool → List Event → Bool
  | _, [] => true
  | seen, e :: t =>
    if isRegisterEvent e then !seen && noRegisterAfterTimeout seen t
    else noRegisterAfterTimeout (seen || isTimeoutPopEvent e) t

/-- The claim C3 as stated: with the subprocess never exiting and all
registrations preceding all timeouts (one incident of simultaneously
pending calls), if some caller ends with a `TimeoutError` then exactly one
restart cycle has happened in total. -/
def claimC3 : Prop :=
  ∀ n tr s, run (initState n) tr = some s →
    (∀ e ∈ tr, e ≠ Event.procExit) →
    noRegisterAfterTimeout false tr = true →
    (∃ c, phaseOf s c = some (Phase.done Outcome.timeoutError)) →
    s.restartCount = 1

/-- C3 counterexample: two callers are pending simultaneously; both
deadlines elapse before either caller's restart resolves the other
(`timeoutPop 0`, `timeoutPop 1`, then both run `_restart_subprocess`).
Both receive `TimeoutError` and the restart cycle runs twice, so the
"exactly one restart" claim is false on the code. -/
def trC3 : List Event :=
  [Event.pollCheck 0, Event.pollCheck 1, Event.getId 0, Event.getId 1,
   Event.register 0, Event.register 1,
   Event.acquire 0, Event.chunkA 0, Event.chunkB 0, Event.release 0,
   Event.acquire 1, Event.chunkA 1, Event.chunkB 1, Event.release 1,
   Event.timeoutPop 0, Event.timeoutPop 1,
   Event.timeoutRestart 0, Event.timeoutRestart 1]

def sC3 : SysState := (run (initState 2) trC3).getD (initState 2)

theorem C3_claim_counterexample : ¬ claimC3 := by
  intro h
  have h2 := h 2 trC3 sC3 (by decide) (by decide) (by decide) ⟨0, by decide⟩
  have h3 : sC3.restartCount = 2 := by decide
  rw [h3] at h2
  exact absurd h2 (by decide)

/-- Each step of the machine keeps the process alive and increments the
restart counter exactly on `timeoutRestart` steps, as long as the
subprocess does not exit spontaneously. -/
theorem step_restart_count {s : SysState} {e : Event} {s2 : SysState}
    (h : step s e = some s2) (hp : s.procAlive = true) (hne : e ≠ Event.procExit) :
    s2.procAlive = true ∧
    s2.restartCount = s.restartCount + (if isTimeoutRestartEvent e then 1 else 0) := by
  cases e with
  | pollCheck c =>
    simp only [step] at h
    split at h
    case h_2 => exact absurd h (by simp)
    case h_1 hc =>
    rw [hp] at h
    simp only [if_true] at h
    obtain rfl := Option.some.inj h
    exact ⟨hp, rfl⟩
  | getId c =>
    simp only [step] at h
    split at h
    case h_2 => exact absurd h (by simp)
    case h_1 hc =>
    split at h
    case isFalse => exact absurd h (by simp)
    case isTrue =>
    obtain rfl := Option.some.inj h
    exact ⟨hp, rfl⟩
  | register c =>
    simp only [step] at h
    split at h
    case h_2 => exact absurd h (by simp)
    case h_1 i hc =>
    obtain rfl := Option.some.inj h
    exact ⟨hp, rfl⟩
  | acquire c =>
    simp only [step] at h
    split at h
    case h_2 => exact absurd h (by simp)
    case h_1 i hc =>
    split at h
    case isFalse => exact absurd h (by simp)
    case isTrue =>
    obtain rfl := Option.some.inj h
    exact ⟨hp, rfl⟩
  | chunkA c =>
    simp only [step] at h
    split at h
    case h_2 => exact absurd h (by simp)
    case h_1 i hc =>
    obtain rfl := Option.some.inj h
    exact ⟨hp, rfl⟩
  | chunkB c =>
    simp only [step] at h
    split at h
    case h_2 => exact absurd h (by simp)
    case h_1 i hc =>
    obtain rfl := Option.some.inj h
    exact ⟨hp, rfl⟩
  | release c =>
    simp only [step] at h
    split at h
    case h_2 => exact absurd h (by simp)
    case h_1 i hc =>
    obtain rfl := Option.some.inj h
    exact ⟨hp, rfl⟩
  | writeFail c =>
    simp only [step] at h
    split at h
    case h_2 => exact absurd h (by simp)
    case h_1 i hc =>
    split at h
    case isTrue => exact absurd h (by simp)
    case isFalse hpa => exact absurd hp hpa
  | finish c =>
    simp only [step] at h
    split at h
    case h_2 => exact absurd h (by simp)
    case h_1 i hc =>
    split at h
    case h_2 => exact absurd h (by simp)
    case h_1 o hres =>
    obtain rfl := Option.some.inj h
    exact ⟨hp, rfl⟩
  | timeoutPop c =>
    simp only [step] at h
    split at h
    case h_2 => exact absurd h (by simp)
    case h_1 i hc =>
    split at h
    case h_2 => exact absurd h (by simp)
    case h_1 hres =>
    obtain rfl := Option.some.inj h
    exact ⟨hp, rfl⟩
  | timeoutRestart c =>
    simp only [step] at h
    split at h
    case h_2 => exact absurd h (by simp)
    case h_1 i hc =>
    split at h
    case isFalse => exact absurd h (by simp)
    case isTrue =>
    obtain rfl := Option.some.inj h
    exact ⟨rfl, rfl⟩
  | respond i p =>
    simp only [step] at h
    split at h
    case isFalse => exact absurd h (by simp)
    case isTrue hwire =>
    split at h
    case h_2 =>
      obtain rfl := Option.some.inj h
      exact ⟨hp, rfl⟩
    case h_1 c0 hfound =>
    split at h <;> [skip; skip] <;>
      · obtain rfl := Option.some.inj h
        exact ⟨hp, rfl⟩
  | procExit => exact absurd rfl hne

theorem run_restart_count {tr : List Event} {s0 s : SysState}
    (h : run s0 tr = some s) (hp : s0.procAlive = true)
    (hne : ∀ e ∈ tr, e ≠ Event.procExit) :
    s.procAlive = true ∧
    s.restartCount = s0.restartCount + (tr.filter isTimeoutRestartEvent).length := by
  induction tr generalizing s0 with
  | nil =>
    simp only [run] at h
    obtain rfl := Option.some.inj h
    simp [hp]
  | cons e t ih =>
    simp only [run] at h
    split at h
    case h_2 => exact absurd h (by simp)
    case h_1 s3 hstep =>
    have he := hne e (List.mem_cons_self _ _)
    obtain ⟨hp3, hc3⟩ := step_restart_count hstep hp he
    obtain ⟨hpf, hcf⟩ := ih h hp3 (fun x hx => hne x (List.mem_cons_of_mem _ hx))
    refine ⟨hpf, ?_⟩
    rw [hcf, hc3]
    by_cases hrt : isTimeoutRestartEvent e = true
    · simp [List.filter, hrt]
      omega
    · rw [Bool.not_eq_true] at hrt
      simp [List.filter, hrt]

/-- C3 amended: each caller whose deadline elapses while its waiter is
still unresolved receives `TimeoutError` and runs its own restart cycle;
concurrent timeouts are not collapsed, so (absent spontaneous subprocess
exits) the number of restart cycles equals the number of timed-out callers
that reached `_restart_subprocess` - one restart per timed-out caller, not
one in total; and a caller whose waiter was already resolved (for example
failed by another caller's restart) re-raises that failure via
`future.result` without triggering any further restart. -/
theorem C3_amended_one_restart_per_timeout (n : Nat) (tr : List Event) (s : SysState)
    (hrun : run (initState n) tr = some s)
    (hne : ∀ e ∈ tr, e ≠ Event.procExit) :
    s.restartCount = (tr.filter isTimeoutRestartEvent).length ∧
    (∀ c s2, step s (Event.timeoutRestart c) = some s2 →
      s2.restartCount = s.restartCount + 1 ∧
      phaseOf s2 c = some (Phase.done Outcome.timeoutError)) ∧
    (∀ c s2, step s (Event.finish c) = some s2 →
      s2.restartCount = s.restartCount) := by
  refine ⟨?_, ?_, ?_⟩
  · have := run_restart_count hrun (by rfl) hne
    simpa [initState] using this.2
  · intro c s2 h
    simp only [step] at h
    split at h
    case h_2 => exact absurd h (by simp)
    case h_1 i hc =>
    split at h
    case isFalse => exact absurd h (by simp)
    case isTrue =>
    obtain rfl := Option.some.inj h
    refine ⟨rfl, ?_⟩
    show (s.callers.set c _)[c]? = _
    rw [getElem_set_phase (phaseOf_lt hc)]
    simp
  · intro c s2 h
    simp only [step] at h
    split at h
    case h_2 => exact absurd h (by simp)
    case h_1 i hc =>
    split at h
    case h_2 => exact absurd h (by simp)
    case h_1 o hres =>
    obtain rfl := Option.some.inj h
    rfl

theorem C3_amended_one_restart_per_timeout_witness :
    sC3.restartCount = (trC3.filter isTimeoutRestartEvent).length :=
  (C3_amended_one_restart_per_timeout 2 trC3 sC3 (by decide) (by decide)).1

/-! ### C5: subprocess exit with pending calls -/

/-- The claim C5 as stated (its error-delivery part): every caller whose
call is pending when the subprocess exits is failed with the restart
failure (`RuntimeError("Server restarted")`), whatever happens next. -/
def claimC5 : Prop :=
  ∀ n t1 rest c i s1 s2 o,
    run (initState n) t1 = some s1 →
    phaseOf s1 c = some (Phase.waiting i) →
    run s1 (Event.procExit :: rest) = some s2 →
    phaseOf s2 c = some (Phase.done o) →
    o = Outcome.restartError

def trC5a : List Event :=
  [Event.pollCheck 0, Event.getId 0, Event.register 0, Event.acquire 0,
   Event.chunkA 0, Event.chunkB 0, Event.release 0]

def sC5a : SysState := (run (initState 1) trC5a).getD (initState 1)

def trC5b : List Event := [Event.timeoutPop 0, Event.timeoutRestart 0]

def sC5b : SysState := (run sC5a (Event.procExit :: trC5b)).getD sC5a

/-- C5 counterexample: the subprocess exits while caller 0's call is
pending and nothing else happens until caller 0's deadline elapses; the
exit itself triggers no restart (the reader merely observes EOF), so
caller 0 takes the timeout path of `_send_request` and receives
`TimeoutError`, not the restart failure the claim promises. -/
theorem C5_claim_counterexample : ¬ claimC5 := by
  intro h
  have h2 := h 1 trC5a trC5b 0 1 sC5a sC5b Outcome.timeoutError
    (by decide) (by decide) (by decide) (by decide)
  exact absurd h2 (by decide)

/-- A fresh caller at the poll check with a live process, the lock free
and an empty pending table completes a call successfully: its send runs
to the wire, the reader resolves its waiter with the response, and
`future.result` returns it. -/
theorem send_succeeds {s : SysState} {c : Nat} (hI : Inv s)
    (hphase : phaseOf s c = some Phase.checked)
    (hlock : s.writeLock = none)
    (hpend : s.pending = []) :
    ∃ s3, run s [Event.getId c, Event.register c, Event.acquire c, Event.chunkA c,
      Event.chunkB c, Event.release c, Event.respond s.nextId (Payload.ok 0),
      Event.finish c] = some s3 ∧
      phaseOf s3 c = some (Phase.done (Outcome.success 0)) := by
  have hlt : c < s.callers.length := phaseOf_lt hphase
  have hsetph : ∀ (l : List Phase) (p : Phase), c < l.length → (l.set c p)[c]? = some p := by
    intro l p h2
    rw [getElem_set_phase h2]
    simp
  have hfr : findRes s.resolved s.nextId c = none := by
    apply findRes_none
    intro r hr
    obtain ⟨g, hg⟩ := hI.resReg r hr
    have := hI.regLt _ hg
    omega
  have h1 : step s (Event.getId c) = some
      { s with callers := s.callers.set c (Phase.gotId s.nextId),
               nextId := s.nextId + 1,
               allocLog := s.allocLog ++ [s.nextId] } := by
    simp only [step, hphase]
    rw [if_pos hlock]
    rfl
  have h2 : step
      { s with callers := s.callers.set c (Phase.gotId s.nextId),
               nextId := s.nextId + 1,
               allocLog := s.allocLog ++ [s.nextId] } (Event.register c) = some
      { s with callers := (s.callers.set c (Phase.gotId s.nextId)).set c
                 (Phase.registered s.nextId),
               nextId := s.nextId + 1,
               allocLog := s.allocLog ++ [s.nextId],
               pending := s.pending ++ [(s.nextId, c)],
               regLog := s.regLog ++ [(s.nextId, c, s.restartCount)] } := by
    have hp : (s.callers.set c (Phase.gotId s.nextId))[c]? = some (Phase.gotId s.nextId) :=
      hsetph _ _ (by simpa using hlt)
    simp only [step, phaseOf, hp]
    rfl
  have h3 : step
      { s with callers := (s.callers.set c (Phase.gotId s.nextId)).set c
                 (Phase.registered s.nextId),
               nextId := s.nextId + 1,
               allocLog := s.allocLog ++ [s.nextId],
               pending := s.pending ++ [(s.nextId, c)],
               regLog := s.regLog ++ [(s.nextId, c, s.restartCount)] }
      (Event.acquire c) = some
      { s with callers := ((s.callers.set c (Phase.gotId s.nextId)).set c
                 (Phase.registered s.nextId)).set c (Phase.inLockA s.nextId),
               nextId := s.nextId + 1,
               allocLog := s.allocLog ++ [s.nextId],
               pending := s.pending ++ [(s.nextId, c)],
               regLog := s.regLog ++ [(s.nextId, c, s.restartCount)],
               writeLock := some c } := by
    have hp : ((s.callers.set c (Phase.gotId s.nextId)).set c
        (Phase.registered s.nextId))[c]? = some (Phase.registered s.nextId) :=
      hsetph _ _ (by simpa using hlt)
    simp only [step, phaseOf, hp]
    rw [if_pos hlock]
    rfl
  have h4 : step
      { s with callers := ((s.callers.set c (Phase.gotId s.nextId)).set c
                 (Phase.registered s.nextId)).set c (Phase.inLockA s.nextId),
               nextId := s.nextId + 1,
               allocLog := s.allocLog ++ [s.nextId],
               pending := s.pending ++ [(s.nextId, c)],
               regLog := s.regLog ++ [(s.nextId, c, s.restartCount)],
               writeLock := some c }
      (Event.chunkA c) = some
      { s with callers := (((s.callers.set c (Phase.gotId s.nextId)).set c
                 (Phase.registered s.nextId)).set c (Phase.inLockA s.nextId)).set c
                 (Phase.inLockB s.nextId),
               nextId := s.nextId + 1,
               allocLog := s.allocLog ++ [s.nextId],
               pending := s.pending ++ [(s.nextId, c)],
               regLog := s.regLog ++ [(s.nextId, c, s.restartCount)],
               writeLock := some c,
               chunks := s.chunks ++ [(c, true)] } := by
    have hp : (((s.callers.set c (Phase.gotId s.nextId)).set c
        (Phase.registered s.nextId)).set c (Phase.inLockA s.nextId))[c]? =
        some (Phase.inLockA s.nextId) :=
      hsetph _ _ (by simpa using hlt)
    simp only [step, phaseOf, hp]
    rfl
  have h5 : step
      { s with callers := (((s.callers.set c (Phase.gotId s.nextId)).set c
                 (Phase.registered s.nextId)).set c (Phase.inLockA s.nextId)).set c
                 (Phase.inLockB s.nextId),
               nextId := s.nextId + 1,
               allocLog := s.allocLog ++ [s.nextId],
               pending := s.pending ++ [(s.nextId, c)],
               regLog := s.regLog ++ [(s.nextId, c, s.restartCount)],
               writeLock := some c,
               chunks := s.chunks ++ [(c, true)] }
      (Event.chunkB c) = some
      { s with callers := ((((s.callers.set c (Phase.gotId s.nextId)).set c
                 (Phase.registered s.nextId)).set c (Phase.inLockA s.nextId)).set c
                 (Phase.inLockB s.nextId)).set c (Phase.inLockC s.nextId),
               nextId := s.nextId + 1,
               allocLog := s.allocLog ++ [s.nextId],
               pending := s.pending ++ [(s.nextId, c)],
               regLog := s.regLog ++ [(s.nextId, c, s.restartCount)],
               writeLock := some c,
               chunks := (s.chunks ++ [(c, true)]) ++ [(c, false)],
               wire := s.wire ++ [s.nextId] } := by
    have hp : ((((s.callers.set c (Phase.gotId s.nextId)).set c
        (Phase.registered s.nextId)).set c (Phase.inLockA s.nextId)).set c
        (Phase.inLockB s.nextId))[c]? = some (Phase.inLockB s.nextId) :=
      hsetph _ _ (by simpa using hlt)
    simp only [step, phaseOf, hp]
    rfl
  have h6 : step
      { s with callers := ((((s.callers.set c (Phase.gotId s.nextId)).set c
                 (Phase.registered s.nextId)).set c (Phase.inLockA s.nextId)).set c
                 (Phase.inLockB s.nextId)).set c (Phase.inLockC s.nextId),
               nextId := s.nextId + 1,
               allocLog := s.allocLog ++ [s.nextId],
               pending := s.pending ++ [(s.nextId, c)],
               regLog := s.regLog ++ [(s.nextId, c, s.restartCount)],
               writeLock := some c,
               chunks := (s.chunks ++ [(c, true)]) ++ [(c, false)],
               wire := s.wire ++ [s.nextId] }
      (Event.release c) = some
      { s with callers := (((((s.callers.set c (Phase.gotId s.nextId)).set c
                 (Phase.registered s.nextId)).set c (Phase.inLockA s.nextId)).set c
                 (Phase.inLockB s.nextId)).set c (Phase.inLockC s.nextId)).set c
                 (Phase.waiting s.nextId),
               nextId := s.nextId + 1,
               allocLog := s.allocLog ++ [s.nextId],
               pending := s.pending ++ [(s.nextId, c)],
               regLog := s.regLog ++ [(s.nextId, c, s.restartCount)],
               writeLock := none,
               chunks := (s.chunks ++ [(c, true)]) ++ [(c, false)],
               wire := s.wire ++ [s.nextId] } := by
    have hp : (((((s.callers.set c (Phase.gotId s.nextId)).set c
        (Phase.registered s.nextId)).set c (Phase.inLockA s.nextId)).set c
        (Phase.inLockB s.nextId)).set c (Phase.inLockC s.nextId))[c]? =
        some (Phase.inLockC s.nextId) :=
      hsetph _ _ (by simpa using hlt)
    simp only [step, phaseOf, hp]
    rfl
  have halo : alookup (s.pending ++ [(s.nextId, c)]) s.nextId = some c := by
    rw [hpend]
    simp [alookup]
  have h7 : step
      { s with callers := (((((s.callers.set c (Phase.gotId s.nextId)).set c
                 (Phase.registered s.nextId)).set c (Phase.inLockA s.nextId)).set c
                 (Phase.inLockB s.nextId)).set c (Phase.inLockC s.nextId)).set c
                 (Phase.waiting s.nextId),
               nextId := s.nextId + 1,
               allocLog := s.allocLog ++ [s.nextId],
               pending := s.pending ++ [(s.nextId, c)],
               regLog := s.regLog ++ [(s.nextId, c, s.restartCount)],
               writeLock := none,
               chunks := (s.chunks ++ [(c, true)]) ++ [(c, false)],
               wire := s.wire ++ [s.nextId] }
      (Event.respond s.nextId (Payload.ok 0)) = some
      { s with callers := (((((s.callers.set c (Phase.gotId s.nextId)).set c
                 (Phase.registered s.nextId)).set c (Phase.inLockA s.nextId)).set c
                 (Phase.inLockB s.nextId)).set c (Phase.inLockC s.nextId)).set c
                 (Phase.waiting s.nextId),
               nextId := s.nextId + 1,
               allocLog := s.allocLog ++ [s.nextId],
               pending := aerase (s.pending ++ [(s.nextId, c)]) s.nextId,
               regLog := s.regLog ++ [(s.nextId, c, s.restartCount)],
               writeLock := none,
               chunks := (s.chunks ++ [(c, true)]) ++ [(c, false)],
               wire := s.wire ++ [s.nextId],
               resolved := s.resolved ++ [(s.nextId, c, Outcome.success 0)] } := by
    simp only [step, halo, hfr]
    rw [if_pos (by simp : s.nextId ∈ s.wire ++ [s.nextId])]
    rfl
  have hres7 : findRes (s.resolved ++ [(s.nextId, c, Outcome.success 0)]) s.nextId c =
      some (Outcome.success 0) := by
    rw [findRes_append_of_none hfr]
    simp [findRes]
  have h8 : step
      { s with callers := (((((s.callers.set c (Phase.gotId s.nextId)).set c
                 (Phase.registered s.nextId)).set c (Phase.inLockA s.nextId)).set c
                 (Phase.inLockB s.nextId)).set c (Phase.inLockC s.nextId)).set c
                 (Phase.waiting s.nextId),
               nextId := s.nextId + 1,
               allocLog := s.allocLog ++ [s.nextId],
               pending := aerase (s.pending ++ [(s.nextId, c)]) s.nextId,
               regLog := s.regLog ++ [(s.nextId, c, s.restartCount)],
               writeLock := none,
               chunks := (s.chunks ++ [(c, true)]) ++ [(c, false)],
               wire := s.wire ++ [s.nextId],
               resolved := s.resolved ++ [(s.nextId, c, Outcome.success 0)] }
      (Event.finish c) = some
      { s with callers := ((((((s.callers.set c (Phase.gotId s.nextId)).set c
                 (Phase.registered s.nextId)).set c (Phase.inLockA s.nextId)).set c
                 (Phase.inLockB s.nextId)).set c (Phase.inLockC s.nextId)).set c
                 (Phase.waiting s.nextId)).set c (Phase.done (Outcome.success 0)),
               nextId := s.nextId + 1,
               allocLog := s.allocLog ++ [s.nextId],
               pending := aerase (s.pending ++ [(s.nextId, c)]) s.nextId,
               regLog := s.regLog ++ [(s.nextId, c, s.restartCount)],
               writeLock := none,
               chunks := (s.chunks ++ [(c, true)]) ++ [(c, false)],
               wire := s.wire ++ [s.nextId],
               resolved := s.resolved ++ [(s.nextId, c, Outcome.success 0)] } := by
    have hp : ((((((s.callers.set c (Phase.gotId s.nextId)).set c
        (Phase.registered s.nextId)).set c (Phase.inLockA s.nextId)).set c
        (Phase.inLockB s.nextId)).set c (Phase.inLockC s.nextId)).set c
        (Phase.waiting s.nextId))[c]? = some (Phase.waiting s.nextId) :=
      hsetph _ _ (by simpa using hlt)
    simp only [step, phaseOf, resolutionFor, hp, hres7]
    rfl
  have hrunfin : run s [Event.getId c, Event.register c, Event.acquire c,
      Event.chunkA c, Event.chunkB c, Event.release c,
      Event.respond s.nextId (Payload.ok 0), Event.finish c] = some
      { s with callers := ((((((s.callers.set c (Phase.gotId s.nextId)).set c
                 (Phase.registered s.nextId)).set c (Phase.inLockA s.nextId)).set c
                 (Phase.inLockB s.nextId)).set c (Phase.inLockC s.nextId)).set c
                 (Phase.waiting s.nextId)).set c (Phase.done (Outcome.success 0)),
               nextId := s.nextId + 1,
               allocLog := s.allocLog ++ [s.nextId],
               pending := aerase (s.pending ++ [(s.nextId, c)]) s.nextId,
               regLog := s.regLog ++ [(s.nextId, c, s.restartCount)],
               writeLock := none,
               chunks := (s.chunks ++ [(c, true)]) ++ [(c, false)],
               wire := s.wire ++ [s.nextId],
               resolved := s.resolved ++ [(s.nextId, c, Outcome.success 0)] } := by
    simp only [run, h1, h2, h3, h4, h5, h6, h7, h8]
  exact ⟨_, hrunfin, hsetph _ _ (by simpa using hlt)⟩

/-- C5 amended: the subprocess exit itself triggers no restart (the
reader merely observes EOF and exits); the death is detected by the next
send attempt's poll check, which performs one restart cycle, failing
every waiter then pending with `RuntimeError("Server restarted")` and
clearing the table; and the new call can then complete successfully
against the freshly spawned generation.  (If instead a pending call's
deadline elapses first, that caller receives `TimeoutError` - see the
counterexample - and its restart fails the remaining pending waiters
with the restart error.) -/
theorem C5_amended_poll_restart_delivers_restart_error (n : Nat) (tr : List Event)
    (s : SysState) (c : Nat)
    (hrun : run (initState n) tr = some s)
    (hphase : phaseOf s c = some Phase.start)
    (hdead : s.procAlive = false)
    (hlock : s.writeLock = none) :
    ∃ s2, step s (Event.pollCheck c) = some s2 ∧
      s2.restartCount = s.restartCount + 1 ∧
      s2.pending = [] ∧
      (∀ q ∈ s.pending, (q.1, q.2, Outcome.restartError) ∈ s2.resolved) ∧
      ∃ tr2 s3, run s2 tr2 = some s3 ∧
        phaseOf s3 c = some (Phase.done (Outcome.success 0)) := by
  have hI := run_inv (inv_init n) hrun
  have hstep : step s (Event.pollCheck c) =
      some (setPhase (restartEffect s) c Phase.checked) := by
    simp only [step, hphase, hdead]
    rw [if_pos hlock]
    simp
  refine ⟨_, hstep, rfl, rfl, ?_, ?_⟩
  · intro q hq
    show (q.1, q.2, Outcome.restartError) ∈ s.resolved ++
      (s.pending.filter (fun p => (findRes s.resolved p.1 p.2).isNone)).map
        (fun p => (p.1, p.2, Outcome.restartError))
    apply List.mem_append_right
    apply List.mem_map.mpr
    refine ⟨q, List.mem_filter.mpr ⟨hq, ?_⟩, rfl⟩
    simp [hI.pendNotDone q hq]
  · have hI2 := step_inv hI hstep
    have hphase2 : phaseOf (setPhase (restartEffect s) c Phase.checked) c =
        some Phase.checked := by
      show (s.callers.set c Phase.checked)[c]? = _
      rw [getElem_set_phase (phaseOf_lt hphase)]
      simp
    obtain ⟨s3, hrun3, hph3⟩ := send_succeeds hI2 hphase2 hlock rfl
    exact ⟨_, s3, hrun3, hph3⟩

/-- C5 amended witness: caller 0 is pending when the subprocess exits;
caller 1's subsequent send detects the death, restarts once, fails caller
0's waiter with the restart error, and completes successfully. -/
def trC5w : List Event :=
  [Event.pollCheck 0, Event.getId 0, Event.register 0, Event.acquire 0,
   Event.chunkA 0, Event.chunkB 0, Event.release 0, Event.procExit]

def sC5w : SysState := (run (initState 2) trC5w).getD (initState 2)

theorem C5_amended_poll_restart_delivers_restart_error_witness :
    ∃ s2, step sC5w (Event.pollCheck 1) = some s2 ∧
      s2.restartCount = sC5w.restartCount + 1 ∧
      s2.pending = [] ∧
      (∀ q ∈ sC5w.pending, (q.1, q.2, Outcome.restartError) ∈ s2.resolved) ∧
      ∃ tr2 s3, run s2 tr2 = some s3 ∧
        phaseOf s3 1 = some (Phase.done (Outcome.success 0)) :=
  C5_amended_poll_restart_delivers_restart_error 2 trC5w sC5w 1
    (by decide) (by decide) (by decide) (by decide)

/-! ### Functional reader-model claims (C4, C7, C10) -/

theorem alookup_aerase_self {α : Type} (l : List (Int × α)) (k : Int) :
    alookup (aerase l k) k = none := by
  induction l with
  | nil => rfl
  | cons hd t ih =>
    obtain ⟨k1, v1⟩ := hd
    by_cases hk : k1 = k
    · simp [aerase, hk, ih]
    · simp [aerase, alookup, hk, ih]

/-- One reader iteration only shrinks the pending table and only resolves
tokens present in it. -/
theorem readerStep_outs_from_pend {pend : List (Int × (Nat × Bool))} {l : RLine}
    {p2 : List (Int × (Nat × Bool))} {os : List (Nat × ROutcome)}
    (h : readerStep pend l = StepOut.cont p2 os) :
    (∀ q ∈ p2, q ∈ pend) ∧ (∀ o ∈ os, ∃ k d, (k, (o.1, d)) ∈ pend) := by
  cases l with
  | invalid =>
    simp only [readerStep] at h
    obtain ⟨rfl, rfl⟩ := (StepOut.cont.injEq _ _ _ _).mp h
    exact ⟨fun q hq => hq, by simp⟩
  | parsed j =>
    cases j with
    | obj fs =>
      simp only [readerStep] at h
      split at h
      case h_2 =>
        obtain ⟨rfl, rfl⟩ := (StepOut.cont.injEq _ _ _ _).mp h
        exact ⟨fun q hq => hq, by simp⟩
      case h_1 idv hidv =>
      split at h
      case isFalse => exact absurd h (by simp)
      case isTrue hhash =>
      split at h
      case h_2 =>
        obtain ⟨rfl, rfl⟩ := (StepOut.cont.injEq _ _ _ _).mp h
        exact ⟨fun q hq => hq, by simp⟩
      case h_1 k hkey =>
      split at h
      case h_2 =>
        obtain ⟨rfl, rfl⟩ := (StepOut.cont.injEq _ _ _ _).mp h
        exact ⟨fun q hq => hq, by simp⟩
      case h_1 w hw =>
      have hwmem : (k, w) ∈ pend := alookup_mem hw
      split at h
      case isTrue =>
        obtain ⟨rfl, rfl⟩ := (StepOut.cont.injEq _ _ _ _).mp h
        exact ⟨fun q hq => (mem_aerase.mp hq).1, by simp⟩
      case isFalse =>
      split at h
      case h_1 e herr =>
        obtain ⟨rfl, rfl⟩ := (StepOut.cont.injEq _ _ _ _).mp h
        refine ⟨fun q hq => (mem_aerase.mp hq).1, ?_⟩
        intro o ho
        simp only [List.mem_singleton] at ho
        subst ho
        exact ⟨k, w.2, hwmem⟩
      case h_2 herr =>
        obtain ⟨rfl, rfl⟩ := (StepOut.cont.injEq _ _ _ _).mp h
        refine ⟨fun q hq => (mem_aerase.mp hq).1, ?_⟩
        intro o ho
        simp only [List.mem_singleton] at ho
        subst ho
        exact ⟨k, w.2, hwmem⟩
    | null => exact absurd h (by simp [readerStep])
    | bool b => exact absurd h (by simp [readerStep])
    | num m => exact absurd h (by simp [readerStep])
    | str t => exact absurd h (by simp [readerStep])
    | arr es => exact absurd h (by simp [readerStep])

theorem readerRun_outs_from_pend {lines : List RLine}
    {pend : List (Int × (Nat × Bool))} :
    ∀ q ∈ (readerRun pend lines).outs, ∃ k d, (k, (q.1, d)) ∈ pend := by
  induction lines generalizing pend with
  | nil => simp [readerRun]
  | cons l rest ih =>
    intro q hq
    cases hstep : readerStep pend l with
    | cont p2 os =>
      simp only [readerRun, hstep] at hq
      rw [List.mem_append] at hq
      rcases hq with hq | hq
      · exact (readerStep_outs_from_pend hstep).2 q hq
      · obtain ⟨k, d, hk⟩ := ih q hq
        exact ⟨k, d, (readerStep_outs_from_pend hstep).1 _ hk⟩
    | brk p2 =>
      simp only [readerRun, hstep] at hq
      exact absurd hq (by simp)

/-- C4: a well-formed response whose id addresses a registered,
not-yet-done waiter resolves exactly that waiter and removes it from the
table in the same iteration: the payload is the error payload when an
`error` field is present and otherwise `result` (defaulting to the empty
dict); the id no longer resolves after removal, and no later line of the
stream can resolve the same waiter token again. -/
theorem C4_registered_waiter_resolved_exactly_once
    (pend : List (Int × (Nat × Bool))) (x : Int) (tok : Nat)
    (fs : List (String × Json)) (idv : Json)
    (hpend : alookup pend x = some (tok, false))
    (huniq : ∀ q ∈ pend, q.2.1 = tok → q.1 = x)
    (hid : lookupField fs kId = some idv)
    (hnn : isNull idv = false)
    (hhash : pyHashable idv = true)
    (hkey : pyIntKey idv = some x) :
    readerStep pend (RLine.parsed (Json.obj fs)) =
      StepOut.cont (aerase pend x)
        [(tok, match lookupField fs kError with
               | some e => ROutcome.err e
               | none => ROutcome.ok ((lookupField fs kResult).getD (Json.obj [])))] ∧
    alookup (aerase pend x) x = none ∧
    ∀ rest q, q ∈ (readerRun (aerase pend x) rest).outs → q.1 ≠ tok := by
  refine ⟨?_, alookup_aerase_self pend x, ?_⟩
  · cases hE : lookupField fs kError with
    | some e => simp [readerStep, getNotNone, hid, hnn, hhash, hkey, hpend, hE]
    | none => simp [readerStep, getNotNone, hid, hnn, hhash, hkey, hpend, hE]
  · intro rest q hq he
    obtain ⟨k, d, hk⟩ := readerRun_outs_from_pend q hq
    obtain ⟨hk1, hk2⟩ := mem_aerase.mp hk
    exact hk2 (huniq (k, (q.1, d)) hk1 (by simpa using he))

theorem C4_registered_waiter_resolved_exactly_once_witness :
    readerStep [((1 : Int), (10, false))]
        (RLine.parsed (Json.obj [(kId, Json.num 1), (kResult, Json.num 7)])) =
      StepOut.cont [] [(10, ROutcome.ok (Json.num 7))] ∧
    alookup (aerase [((1 : Int), (10, false))] 1) 1 = none :=
  ⟨(C4_registered_waiter_resolved_exactly_once [(1, (10, false))] 1 10
      [(kId, Json.num 1), (kResult, Json.num 7)] (Json.num 1) rfl
      (by intro q hq he; rw [List.mem_singleton] at hq; subst hq; rfl)
      rfl rfl rfl rfl).1,
   (C4_registered_waiter_resolved_exactly_once [(1, (10, false))] 1 10
      [(kId, Json.num 1), (kResult, Json.num 7)] (Json.num 1) rfl
      (by intro q hq he; rw [List.mem_singleton] at hq; subst hq; rfl)
      rfl rfl rfl rfl).2.1⟩

/-- C10: a response with a registered id and neither an `error` nor a
`result` field resolves its waiter successfully with the empty dict
(`resp.get("result", {})`); and a response whose id has no registered
waiter is ignored - the table is unchanged and the loop continues. -/
theorem C10_default_empty_result_and_unknown_id_ignored :
    (∀ (pend : List (Int × (Nat × Bool))) (x : Int) (tok : Nat)
       (fs : List (String × Json)),
      alookup pend x = some (tok, false) →
      lookupField fs kId = some (Json.num x) →
      lookupField fs kError = none →
      lookupField fs kResult = none →
      readerStep pend (RLine.parsed (Json.obj fs)) =
        StepOut.cont (aerase pend x) [(tok, ROutcome.ok (Json.obj []))]) ∧
    (∀ (pend : List (Int × (Nat × Bool))) (y : Int) (fs : List (String × Json)),
      lookupField fs kId = some (Json.num y) →
      alookup pend y = none →
      readerStep pend (RLine.parsed (Json.obj fs)) = StepOut.cont pend []) := by
  constructor
  · intro pend x tok fs hpend hid herr hres
    simp [readerStep, getNotNone, hid, isNull, pyHashable, pyIntKey, hpend, herr, hres]
  · intro pend y fs hid hpend
    simp [readerStep, getNotNone, hid, isNull, pyHashable, pyIntKey, hpend]

theorem C10_default_empty_result_and_unknown_id_ignored_witness :
    readerStep [((3 : Int), (11, false))]
        (RLine.parsed (Json.obj [(kId, Json.num 3)])) =
      StepOut.cont [] [(11, ROutcome.ok (Json.obj []))] ∧
    readerStep [((3 : Int), (11, false))]
        (RLine.parsed (Json.obj [(kId, Json.num 9)])) =
      StepOut.cont [((3 : Int), (11, false))] [] :=
  ⟨C10_default_empty_result_and_unknown_id_ignored.1 [(3, (11, false))] 3 11
      [(kId, Json.num 3)] rfl rfl rfl rfl,
   C10_default_empty_result_and_unknown_id_ignored.2 [(3, (11, false))] 9
      [(kId, Json.num 9)] rfl rfl⟩

/-! ### C7: malformed lines -/

/-- A line holding a well-formed protocol message: requests, responses
and notifications are all JSON objects (spec section 3), so a line is
well-formed exactly when it decodes to an object. -/
def wellFormedLine : RLine → Prop
  | RLine.invalid => False
  | RLine.parsed (Json.obj _) => True
  | RLine.parsed _ => False

/-- The claim C7 as stated: every line that fails to parse as a
well-formed message is skipped - the loop never terminates on it - and a
subsequent well-formed response still resolves its registered waiter. -/
def claimC7 : Prop :=
  ∀ pend pre (x : Int) (tok : Nat) fs,
    (∀ l ∈ pre, ¬ wellFormedLine l) →
    alookup pend x = some (tok, false) →
    lookupField fs kId = some (Json.num x) →
    (readerRun pend (pre ++ [RLine.parsed (Json.obj fs)])).broke = false ∧
    ∃ q ∈ (readerRun pend (pre ++ [RLine.parsed (Json.obj fs)])).outs, q.1 = tok

/-- C7 counterexample: the line `[]` is valid JSON but not a well-formed
message; `resp.get("id")` raises `AttributeError` on the decoded list and
the outer handler breaks the reader loop (lines 124-126), so the loop
terminates and the waiter registered for the following well-formed
response is never resolved. -/
theorem C7_claim_counterexample : ¬ claimC7 := by
  intro h
  obtain ⟨hbroke, -⟩ := h [(1, (10, false))] [RLine.parsed (Json.arr [])] 1 10
    [(kId, Json.num 1)]
    (by intro l hl; rw [List.mem_singleton] at hl; subst hl; simp [wellFormedLine])
    rfl rfl
  exact absurd hbroke (by decide)

/-- C7 amended: a line that fails JSON decoding is logged and skipped:
the reader continues exactly as if the line had not been there, so
subsequent valid responses still resolve their waiters; however a line
that decodes to a non-object value (or a response whose id is an
unhashable value) raises inside the loop body and terminates the reader
loop - only undecodable lines are tolerated, not all non-well-formed
ones. -/
theorem C7_amended_undecodable_lines_skipped (pend : List (Int × (Nat × Bool)))
    (pre rest : List RLine) (hpre : ∀ l ∈ pre, l = RLine.invalid) :
    readerRun pend (pre ++ rest) = readerRun pend rest := by
  induction pre with
  | nil => rfl
  | cons l t ih =>
    have hl := hpre l (List.mem_cons_self _ _)
    subst hl
    show readerRun pend (RLine.invalid :: (t ++ rest)) = _
    simp only [readerRun, readerStep]
    rw [ih (fun x hx => hpre x (List.mem_cons_of_mem _ hx))]
    simp only [List.nil_append]

theorem C7_amended_undecodable_lines_skipped_witness :
    readerRun [((1 : Int), (10, false))]
      ([RLine.invalid, RLine.invalid] ++
        [RLine.parsed (Json.obj [(kId, Json.num 1), (kResult, Json.num 7)])]) =
    readerRun [((1 : Int), (10, false))]
      [RLine.parsed (Json.obj [(kId, Json.num 1), (kResult, Json.num 7)])] :=
  C7_amended_undecodable_lines_skipped [(1, (10, false))]
    [RLine.invalid, RLine.invalid]
    [RLine.parsed (Json.obj [(kId, Json.num 1), (kResult, Json.num 7)])]
    (by
      intro l hl
      simp at hl
      subst hl
      rfl)

end Claims

end ProxyMCP
